import Mathlib

/-!
# Verification of the opencode-antigravity-auth request-path core

This file gives a shallow embedding, in Lean 4, of the parts of the
`opencode-antigravity-auth` plugin that the verified claims are about:

* the multi-account manager with per-model-family rate-limit state
  (`src/accounts.js`: `AccountManager`, `isRateLimitedForFamily`,
  `getCurrentOrNextForFamily`, `getNextForFamily`, `removeAccount`,
  `markRateLimited`);
* the versioned credential-store migrations (`src/storage.js`:
  `migrateV1ToV2`, `migrateV2ToV3`);
* the dual-TTL signature cache (`src/plugin/cache/signature-cache.js`:
  `store`, `retrieve`, `saveToDisk`, `flush`);
* the request-preparation pipeline for Claude thinking models
  (`src/plugin/request.js` / `project.d.ts`: thinking-block discipline,
  tool-id pairing passes, session-key construction, the warmup flag,
  the thinking-config step) together with the Claude transform helpers
  (`src/plugin/transform/claude.js`).

JavaScript objects are translated to Lean structures holding exactly the
fields the embedded functions read or write; `Date.now()` becomes an
explicit `now : Nat` argument (unix milliseconds); in-place mutation of a
shared object becomes positional update of the list that owns it; external
primitives (SHA-256) become explicit function parameters.  Functions whose
implementation is not part of the repository snapshot (only their
declarations are) are modelled from the specification and are marked
`Modelled from the spec:` in their doc comment.
-/

namespace Antigravity

/-! ## Account manager (`src/accounts.js`) -/

/-- Physical rate-limit bucket, `QuotaKey` in `src/storage.d.ts`:
`"claude" | "gemini-antigravity" | "gemini-cli"`. -/
inductive QuotaKey
  | claude
  | geminiAntigravity
  | geminiCli
deriving DecidableEq, Repr

/-- `ModelFamily`: `"claude" | "gemini"`. -/
inductive ModelFamily
  | claude
  | gemini
deriving DecidableEq, Repr

/-- `HeaderStyle`: `"antigravity" | "gemini-cli"`. -/
inductive HeaderStyle
  | antigravity
  | geminiCli
deriving DecidableEq, Repr

/-- The `rateLimitResetTimes` record of an account: an optional unix-ms
reset time per quota key (`RateLimitStateV3`). -/
structure RateLimitTimes where
  claude : Option Nat := none
  geminiAntigravity : Option Nat := none
  geminiCli : Option Nat := none
deriving DecidableEq, Repr

/-- Field lookup `account.rateLimitResetTimes[key]`. -/
def RateLimitTimes.get (r : RateLimitTimes) : QuotaKey → Option Nat
  | .claude => r.claude
  | .geminiAntigravity => r.geminiAntigravity
  | .geminiCli => r.geminiCli

/-- Field assignment `account.rateLimitResetTimes[key] = v`. -/
def RateLimitTimes.set (r : RateLimitTimes) : QuotaKey → Option Nat → RateLimitTimes
  | .claude, v => { r with claude := v }
  | .geminiAntigravity, v => { r with geminiAntigravity := v }
  | .geminiCli, v => { r with geminiCli := v }

/-- `ManagedAccount`, restricted to the fields the embedded account-manager
functions touch.  `refreshToken` stands in for the credential payload and
keeps distinct accounts distinguishable as values. -/
structure ManagedAccount where
  index : Nat
  refreshToken : String := ""
  lastUsed : Nat := 0
  rateLimitResetTimes : RateLimitTimes := {}
deriving DecidableEq, Repr

/-- `getQuotaKey(family, headerStyle)`. -/
def getQuotaKey (family : ModelFamily) (headerStyle : HeaderStyle) : QuotaKey :=
  match family with
  | .claude => .claude
  | .gemini =>
    match headerStyle with
    | .geminiCli => .geminiCli
    | .antigravity => .geminiAntigravity

/-- `isRateLimitedForQuotaKey(account, key)`: the key has a reset time and
it is still in the future (`nowMs() < resetTime`). -/
def isRateLimitedForQuotaKey (now : Nat) (a : ManagedAccount) (key : QuotaKey) : Bool :=
  match a.rateLimitResetTimes.get key with
  | some resetTime => now < resetTime
  | none => false

/-- `isRateLimitedForFamily(account, family)`: claude checks its single key,
gemini is limited only when both of its keys are limited. -/
def isRateLimitedForFamily (now : Nat) (a : ManagedAccount) (family : ModelFamily) : Bool :=
  match family with
  | .claude => isRateLimitedForQuotaKey now a .claude
  | .gemini =>
    isRateLimitedForQuotaKey now a .geminiAntigravity &&
      isRateLimitedForQuotaKey now a .geminiCli

/-- One key of `clearExpiredRateLimits`: delete the reset time once
`now >= resetTime`. -/
def clearKey (now : Nat) : Option Nat → Option Nat
  | some t => if t ≤ now then none else some t
  | none => none

/-- `clearExpiredRateLimits(account)`: lazily prune reset times that are no
longer in the future, over all three quota keys. -/
def clearExpiredRateLimits (now : Nat) (a : ManagedAccount) : ManagedAccount :=
  { a with
    rateLimitResetTimes :=
      { claude := clearKey now a.rateLimitResetTimes.claude
        geminiAntigravity := clearKey now a.rateLimitResetTimes.geminiAntigravity
        geminiCli := clearKey now a.rateLimitResetTimes.geminiCli } }

/-- `markRateLimited(account, retryAfterMs, family, headerStyle)`. -/
def markRateLimited (now : Nat) (a : ManagedAccount) (retryAfterMs : Nat)
    (family : ModelFamily) (headerStyle : HeaderStyle) : ManagedAccount :=
  { a with
    rateLimitResetTimes :=
      a.rateLimitResetTimes.set (getQuotaKey family headerStyle) (some (now + retryAfterMs)) }

/-- `currentAccountIndexByFamily`: `-1` means no selection. -/
structure FamilyIndexes where
  claude : Int := -1
  gemini : Int := -1
deriving DecidableEq, Repr

/-- Lookup `currentAccountIndexByFamily[family]`. -/
def FamilyIndexes.get (f : FamilyIndexes) : ModelFamily → Int
  | .claude => f.claude
  | .gemini => f.gemini

/-- Assignment `currentAccountIndexByFamily[family] = v`. -/
def FamilyIndexes.set (f : FamilyIndexes) : ModelFamily → Int → FamilyIndexes
  | .claude, v => { f with claude := v }
  | .gemini, v => { f with gemini := v }

/-- The mutable state of an `AccountManager` relevant to selection and
removal: the pool, the round-robin cursor and the per-family selection. -/
structure AMState where
  accounts : List ManagedAccount
  cursor : Nat := 0
  currentAccountIndexByFamily : FamilyIndexes := {}
deriving DecidableEq, Repr

/-- Positions (array indices) of the elements of `l` satisfying `pred`.
This models JavaScript's `filter` over an array of shared mutable objects:
the filtered "objects" are identified by their position in the owning
array, so that an in-place mutation of a filtered element can be rendered
as a positional update of the owning list. -/
def filterPos (pred : α → Bool) : List α → List Nat
  | [] => []
  | a :: as =>
    if pred a then 0 :: (filterPos pred as).map (· + 1)
    else (filterPos pred as).map (· + 1)

/-- `AccountManager.getNextForFamily(family)`: prune expired reset times on
every account, filter the accounts not rate-limited for the family; if none
return `null`, otherwise return `available[cursor % available.length]`,
post-increment the cursor and stamp `lastUsed`.  Returns the selected
account (if any) together with the updated manager state. -/
def getNextForFamily (now : Nat) (family : ModelFamily) (s : AMState) :
    Option ManagedAccount × AMState :=
  let pruned := s.accounts.map (clearExpiredRateLimits now)
  let availablePos := filterPos (fun a => !isRateLimitedForFamily now a family) pruned
  if availablePos.length = 0 then
    (none, { s with accounts := pruned })
  else
    match availablePos.get? (s.cursor % availablePos.length) with
    | none => (none, { s with accounts := pruned })
    | some p =>
      match pruned.get? p with
      | none => (none, { s with accounts := pruned })
      | some a =>
        let a2 := { a with lastUsed := now }
        (some a2, { s with accounts := pruned.set p a2, cursor := s.cursor + 1 })

/-- The `getNext` fallback of `getCurrentOrNextForFamily`: select the next
account and, when one is found, record its `index` as the family's current
selection. -/
def getNextAndMarkCurrent (now : Nat) (family : ModelFamily) (s : AMState) :
    Option ManagedAccount × AMState :=
  match getNextForFamily now family s with
  | (some next, s2) =>
    (some next,
      { s2 with
        currentAccountIndexByFamily :=
          s2.currentAccountIndexByFamily.set family (Int.ofNat next.index) })
  | (none, s2) => (none, s2)

/-- `AccountManager.getCurrentOrNextForFamily(family)`: sticky selection.
If the currently selected account for the family exists and, after pruning,
is not rate-limited for the family, return it (stamping `lastUsed`);
otherwise fall back to `getNextForFamily`. -/
def getCurrentOrNextForFamily (now : Nat) (family : ModelFamily) (s : AMState) :
    Option ManagedAccount × AMState :=
  let ci := s.currentAccountIndexByFamily.get family
  if 0 ≤ ci ∧ ci < (s.accounts.length : Int) then
    match s.accounts.get? ci.toNat with
    | some current =>
      let cleared := clearExpiredRateLimits now current
      if !isRateLimitedForFamily now cleared family then
        let cleared2 := { cleared with lastUsed := now }
        (some cleared2, { s with accounts := s.accounts.set ci.toNat cleared2 })
      else
        getNextAndMarkCurrent now family { s with accounts := s.accounts.set ci.toNat cleared }
    | none => getNextAndMarkCurrent now family s
  else
    getNextAndMarkCurrent now family s

/-- Reindexing pass of `removeAccount`: `accounts.forEach((acc, i) => acc.index = i)`. -/
def reindexFrom (i : Nat) : List ManagedAccount → List ManagedAccount
  | [] => []
  | a :: as => { a with index := i } :: reindexFrom (i + 1) as

/-- `AccountManager.removeAccount(account)` where the account sits at
position `idx` of the pool (`indexOf`).  Splices it out, re-indexes the
survivors, resets everything when the pool became empty, otherwise adjusts
the cursor and each family's current index. -/
def removeAccountAt (s : AMState) (idx : Nat) : AMState :=
  if idx < s.accounts.length then
    let accounts := reindexFrom 0 (s.accounts.eraseIdx idx)
    if accounts.length = 0 then
      { accounts := [], cursor := 0, currentAccountIndexByFamily := { claude := -1, gemini := -1 } }
    else
      let cursor1 := if idx < s.cursor then s.cursor - 1 else s.cursor
      let updFam : Int → Int := fun f =>
        let f1 := if (idx : Int) < f then f - 1 else f
        if (accounts.length : Int) ≤ f1 then -1 else f1
      { accounts := accounts
        cursor := cursor1 % accounts.length
        currentAccountIndexByFamily :=
          { claude := updFam s.currentAccountIndexByFamily.claude
            gemini := updFam s.currentAccountIndexByFamily.gemini } }
  else s

/-- The claim's notion of a free quota key: the reset time is absent or in
the past (not strictly in the future). -/
def quotaKeyFree (now : Nat) (a : ManagedAccount) (key : QuotaKey) : Bool :=
  match a.rateLimitResetTimes.get key with
  | some t => t ≤ now
  | none => true

/-- The claim's availability predicate: the account has at least one free
quota key for the family (the single `claude` key, or at least one of the
two gemini keys). -/
def hasFreeQuotaKeyForFamily (now : Nat) (a : ManagedAccount) (family : ModelFamily) : Bool :=
  match family with
  | .claude => quotaKeyFree now a .claude
  | .gemini => quotaKeyFree now a .geminiAntigravity || quotaKeyFree now a .geminiCli

/-! ### Basic lemmas about pruning and availability -/

theorem clearExpiredRateLimits_get (now : Nat) (a : ManagedAccount) (k : QuotaKey) :
    (clearExpiredRateLimits now a).rateLimitResetTimes.get k =
      clearKey now (a.rateLimitResetTimes.get k) := by
  cases k <;> rfl

theorem isRateLimitedForQuotaKey_eq_not_free (now : Nat) (a : ManagedAccount) (k : QuotaKey) :
    isRateLimitedForQuotaKey now a k = !quotaKeyFree now a k := by
  unfold isRateLimitedForQuotaKey quotaKeyFree
  cases a.rateLimitResetTimes.get k with
  | none => rfl
  | some t =>
    by_cases h : now < t
    · simp [h, show ¬t ≤ now by omega]
    · simp [h, show t ≤ now by omega]

theorem quotaKeyFree_clear (now : Nat) (a : ManagedAccount) (k : QuotaKey) :
    quotaKeyFree now (clearExpiredRateLimits now a) k = quotaKeyFree now a k := by
  unfold quotaKeyFree
  rw [clearExpiredRateLimits_get]
  cases h : a.rateLimitResetTimes.get k with
  | none => rfl
  | some t =>
    by_cases ht : t ≤ now <;> simp [clearKey, ht]

theorem isRateLimitedForQuotaKey_clear (now : Nat) (a : ManagedAccount) (k : QuotaKey) :
    isRateLimitedForQuotaKey now (clearExpiredRateLimits now a) k =
      isRateLimitedForQuotaKey now a k := by
  rw [isRateLimitedForQuotaKey_eq_not_free, isRateLimitedForQuotaKey_eq_not_free,
    quotaKeyFree_clear]

theorem not_isRateLimitedForFamily_eq_free (now : Nat) (a : ManagedAccount)
    (family : ModelFamily) :
    (!isRateLimitedForFamily now a family) = hasFreeQuotaKeyForFamily now a family := by
  cases family <;>
    simp only [isRateLimitedForFamily, hasFreeQuotaKeyForFamily,
      isRateLimitedForQuotaKey_eq_not_free]
  · exact Bool.not_not _
  · cases quotaKeyFree now a .geminiAntigravity <;> cases quotaKeyFree now a .geminiCli <;> rfl

theorem hasFreeQuotaKeyForFamily_clear (now : Nat) (a : ManagedAccount)
    (family : ModelFamily) :
    hasFreeQuotaKeyForFamily now (clearExpiredRateLimits now a) family =
      hasFreeQuotaKeyForFamily now a family := by
  cases family <;>
    simp only [hasFreeQuotaKeyForFamily, quotaKeyFree_clear]

theorem isRateLimitedForFamily_clear (now : Nat) (a : ManagedAccount)
    (family : ModelFamily) :
    isRateLimitedForFamily now (clearExpiredRateLimits now a) family =
      isRateLimitedForFamily now a family := by
  cases family <;>
    simp only [isRateLimitedForFamily, isRateLimitedForQuotaKey_clear]

/-! ### `filterPos` lemmas -/

theorem filterPos_length (pred : α → Bool) (l : List α) :
    (filterPos pred l).length = (l.filter pred).length := by
  induction l with
  | nil => rfl
  | cons a as ih =>
    by_cases h : pred a = true <;>
      simp [filterPos, List.filter_cons, h, ih]

theorem filterPos_mem_lt (pred : α → Bool) (l : List α) :
    ∀ p ∈ filterPos pred l, p < l.length := by
  induction l with
  | nil => intro p hp; simp [filterPos] at hp
  | cons a as ih =>
    intro p hp
    by_cases h : pred a = true <;> simp [filterPos, h] at hp
    · rcases hp with rfl | ⟨q, hq, rfl⟩
      · simp
      · have := ih q hq; simpa using Nat.succ_lt_succ this
    · rcases hp with ⟨q, hq, rfl⟩
      have := ih q hq; simpa using Nat.succ_lt_succ this

theorem filterPos_get?_bind (pred : α → Bool) (l : List α) (k : Nat) :
    ((filterPos pred l).get? k).bind l.get? = (l.filter pred).get? k := by
  induction l generalizing k with
  | nil => simp [filterPos]
  | cons a as ih =>
    by_cases h : pred a = true
    · cases k with
      | zero => simp [filterPos, h, List.filter_cons_of_pos h]
      | succ k =>
        have hl : (filterPos pred (a :: as)).get? (k + 1) =
            ((filterPos pred as).get? k).map (· + 1) := by
          simp [filterPos, h, List.get?_map]
        rw [hl, List.filter_cons_of_pos h, List.get?_cons_succ, ← ih k]
        cases hq : (filterPos pred as).get? k with
        | none => simp [hq]
        | some p => simp [hq]
    · have hl : (filterPos pred (a :: as)).get? k =
          ((filterPos pred as).get? k).map (· + 1) := by
        simp [filterPos, h, List.get?_map]
      rw [hl, List.filter_cons_of_neg (by simpa using h), ← ih k]
      cases hq : (filterPos pred as).get? k with
      | none => simp [hq]
      | some p => simp [hq]

theorem any_set_congr (l : List α) (i : Nat) (a b : α) (p : α → Bool)
    (hget : l.get? i = some a) (hpb : p b = p a) :
    (l.set i b).any p = l.any p := by
  induction l generalizing i with
  | nil => simp at hget
  | cons x xs ih =>
    cases i with
    | zero =>
      simp only [List.get?_cons_zero, Option.some.injEq] at hget
      subst hget
      simp [List.set, hpb]
    | succ i =>
      simp only [List.get?_cons_succ] at hget
      simp [List.set, ih i hget]

/-! ### Availability of `getNextForFamily` and `getCurrentOrNextForFamily` (C1, C6) -/

theorem pruned_any_free (now : Nat) (family : ModelFamily) (accounts : List ManagedAccount) :
    (accounts.map (clearExpiredRateLimits now)).any
        (fun a => !isRateLimitedForFamily now a family) =
      accounts.any (fun a => hasFreeQuotaKeyForFamily now a family) := by
  rw [List.any_map]
  congr 1
  funext a
  simp only [Function.comp]
  rw [not_isRateLimitedForFamily_eq_free, hasFreeQuotaKeyForFamily_clear]

theorem filterPos_nil_any (pred : α → Bool) (l : List α)
    (h0 : (filterPos pred l).length = 0) : l.any pred = false := by
  have hfilter : (l.filter pred).length = 0 := by
    rw [← filterPos_length]; exact h0
  have hnil := List.length_eq_zero.mp hfilter
  rw [List.any_eq_false]
  intro a ha hpa
  have : a ∈ l.filter pred := List.mem_filter.mpr ⟨ha, hpa⟩
  rw [hnil] at this
  simp at this

theorem getNextForFamily_isSome (now : Nat) (family : ModelFamily) (s : AMState) :
    (getNextForFamily now family s).fst.isSome =
      s.accounts.any (fun a => hasFreeQuotaKeyForFamily now a family) := by
  rw [← pruned_any_free now family s.accounts]
  set pruned := s.accounts.map (clearExpiredRateLimits now) with hpruned
  set pred : ManagedAccount → Bool := fun a => !isRateLimitedForFamily now a family with hpred
  show (getNextForFamily now family s).fst.isSome = pruned.any pred
  by_cases h0 : (filterPos pred pruned).length = 0
  · have hres : getNextForFamily now family s = (none, { s with accounts := pruned }) := by
      unfold getNextForFamily
      rw [← hpruned, ← hpred, if_pos h0]
    rw [hres, filterPos_nil_any pred pruned h0]
    rfl
  · have hlen : 0 < (filterPos pred pruned).length := Nat.pos_of_ne_zero h0
    have hk : s.cursor % (filterPos pred pruned).length < (filterPos pred pruned).length :=
      Nat.mod_lt _ hlen
    have hget := List.get?_eq_get hk
    set p := (filterPos pred pruned).get ⟨s.cursor % (filterPos pred pruned).length, hk⟩
      with hpdef
    have hmem : p ∈ filterPos pred pruned := List.get_mem _ _ _
    have hplt : p < pruned.length := filterPos_mem_lt pred pruned p hmem
    have hpa := List.get?_eq_get hplt
    set a := pruned.get ⟨p, hplt⟩ with hadef
    have hatrue : pred a = true := by
      have hb := filterPos_get?_bind pred pruned (s.cursor % (filterPos pred pruned).length)
      rw [hget] at hb
      simp only [Option.some_bind] at hb
      rw [hpa] at hb
      have hmemf : a ∈ pruned.filter pred := List.get?_mem hb.symm
      exact (List.mem_filter.mp hmemf).2
    have hanytrue : pruned.any pred = true :=
      List.any_eq_true.mpr ⟨a, List.get?_mem hpa, hatrue⟩
    have hres : getNextForFamily now family s =
        (some { a with lastUsed := now },
          { s with accounts := pruned.set p { a with lastUsed := now },
                   cursor := s.cursor + 1 }) := by
      unfold getNextForFamily
      rw [← hpruned, ← hpred, if_neg h0, hget]
      dsimp only
      rw [hpa]
    rw [hres, hanytrue]
    rfl

theorem getNextAndMarkCurrent_isSome (now : Nat) (family : ModelFamily) (s : AMState) :
    (getNextAndMarkCurrent now family s).fst.isSome =
      s.accounts.any (fun a => hasFreeQuotaKeyForFamily now a family) := by
  rw [← getNextForFamily_isSome now family s]
  unfold getNextAndMarkCurrent
  cases h : getNextForFamily now family s with
  | mk fst snd => cases fst <;> simp [h]

/-- **C1** For every account pool state, family and time (hence after every
sequence of `markRateLimited` calls and time advances),
`getCurrentOrNextForFamily(family)` returns an account exactly when some
account in the pool has at least one quota key for that family whose reset
time is absent or in the past: for claude the single `claude` key, for
gemini at least one of `gemini-antigravity` and `gemini-cli` — so an
account with only one of the two gemini keys limited is still returned for
the gemini family. -/
theorem getCurrentOrNextForFamily_returns_iff_free_key
    (now : Nat) (family : ModelFamily) (s : AMState) :
    (getCurrentOrNextForFamily now family s).fst.isSome =
      s.accounts.any (fun a => hasFreeQuotaKeyForFamily now a family) := by
  unfold getCurrentOrNextForFamily
  by_cases hci : 0 ≤ s.currentAccountIndexByFamily.get family ∧
      s.currentAccountIndexByFamily.get family < (s.accounts.length : Int)
  · rw [if_pos hci]
    cases hget : s.accounts.get? (s.currentAccountIndexByFamily.get family).toNat with
    | none =>
      dsimp only
      exact getNextAndMarkCurrent_isSome now family s
    | some current =>
      dsimp only
      by_cases hrl :
          (!isRateLimitedForFamily now (clearExpiredRateLimits now current) family) = true
      · rw [if_pos hrl]
        have hfree : hasFreeQuotaKeyForFamily now current family = true := by
          rw [not_isRateLimitedForFamily_eq_free, hasFreeQuotaKeyForFamily_clear] at hrl
          exact hrl
        have hmem : current ∈ s.accounts := List.get?_mem hget
        have : s.accounts.any (fun a => hasFreeQuotaKeyForFamily now a family) = true :=
          List.any_eq_true.mpr ⟨current, hmem, hfree⟩
        rw [this]
        rfl
      · rw [if_neg hrl]
        rw [getNextAndMarkCurrent_isSome]
        dsimp only
        exact any_set_congr s.accounts _ current (clearExpiredRateLimits now current) _
          hget (hasFreeQuotaKeyForFamily_clear now current family)
  · rw [if_neg hci]
    exact getNextAndMarkCurrent_isSome now family s

/-- **C6** `getNextForFamily(family)` filters the accounts (after pruning
expired reset times) to those not rate-limited for the family; when the
filtered list is empty it returns `null` and leaves the round-robin cursor
unchanged, otherwise it returns the element of the filtered list at index
`cursor mod length`, with `lastUsed` stamped, and increments the cursor. -/
theorem getNextForFamily_rotation (now : Nat) (family : ModelFamily) (s : AMState) :
    (let pruned := s.accounts.map (clearExpiredRateLimits now)
     let filtered := pruned.filter (fun a => !isRateLimitedForFamily now a family)
     if filtered.length = 0 then
       getNextForFamily now family s = (none, { s with accounts := pruned })
     else
       (getNextForFamily now family s).fst =
           (filtered.get? (s.cursor % filtered.length)).map (fun a => { a with lastUsed := now })
         ∧ (getNextForFamily now family s).snd.cursor = s.cursor + 1) := by
  set pruned := s.accounts.map (clearExpiredRateLimits now) with hpruned
  set pred : ManagedAccount → Bool := fun a => !isRateLimitedForFamily now a family with hpred
  show if (pruned.filter pred).length = 0 then _ else _
  have hlencongr := filterPos_length pred pruned
  by_cases h0 : (pruned.filter pred).length = 0
  · rw [if_pos h0]
    unfold getNextForFamily
    rw [← hpruned, ← hpred, if_pos (hlencongr.trans h0)]
  · rw [if_neg h0]
    have h0p : ¬(filterPos pred pruned).length = 0 := by rw [hlencongr]; exact h0
    have hlen : 0 < (filterPos pred pruned).length := Nat.pos_of_ne_zero h0p
    have hk : s.cursor % (filterPos pred pruned).length < (filterPos pred pruned).length :=
      Nat.mod_lt _ hlen
    have hget := List.get?_eq_get hk
    set p := (filterPos pred pruned).get ⟨s.cursor % (filterPos pred pruned).length, hk⟩
      with hpdef
    have hmem : p ∈ filterPos pred pruned := List.get_mem _ _ _
    have hplt : p < pruned.length := filterPos_mem_lt pred pruned p hmem
    have hpa := List.get?_eq_get hplt
    set a := pruned.get ⟨p, hplt⟩ with hadef
    have hres : getNextForFamily now family s =
        (some { a with lastUsed := now },
          { s with accounts := pruned.set p { a with lastUsed := now },
                   cursor := s.cursor + 1 }) := by
      unfold getNextForFamily
      rw [← hpruned, ← hpred, if_neg h0p, hget]
      dsimp only
      rw [hpa]
    have hbind := filterPos_get?_bind pred pruned (s.cursor % (filterPos pred pruned).length)
    rw [hget] at hbind
    simp only [Option.some_bind] at hbind
    rw [hpa] at hbind
    constructor
    · rw [hres]
      rw [hlencongr] at hbind
      rw [← hbind]
      rfl
    · rw [hres]

/-! ### Removal (`removeAccount`, C7) -/

theorem reindexFrom_length (i : Nat) (l : List ManagedAccount) :
    (reindexFrom i l).length = l.length := by
  induction l generalizing i with
  | nil => rfl
  | cons a as ih => simp [reindexFrom, ih]

theorem reindexFrom_get? (l : List ManagedAccount) (i k : Nat) :
    (reindexFrom i l).get? k = (l.get? k).map (fun a => { a with index := i + k }) := by
  induction l generalizing i k with
  | nil => simp [reindexFrom]
  | cons a as ih =>
    cases k with
    | zero => simp [reindexFrom]
    | succ k =>
      simp only [reindexFrom, List.get?_cons_succ, ih (i + 1) k]
      have : i + 1 + k = i + (k + 1) := by omega
      rw [this]

/-- Concrete two-account pool whose claude family index references
position `0`. -/
def removalPoolTwo : AMState :=
  { accounts :=
      [ { index := 0, refreshToken := "acc-a" },
        { index := 1, refreshToken := "acc-b" } ]
    cursor := 0
    currentAccountIndexByFamily := { claude := 0, gemini := -1 } }

/-- **C7 counterexample** In a two-account pool whose claude
family-active-index references position 0, removing the account at
position 0 does *not* reset the claude index to `-1`: the code only
decrements indices strictly greater than the removed position, so an index
equal to the removed position is left pointing at the account that shifted
into that slot. -/
theorem removeAccount_reset_claim_false :
    removalPoolTwo.currentAccountIndexByFamily.claude = 0 ∧
      (removeAccountAt removalPoolTwo 0).currentAccountIndexByFamily.claude = 0 ∧
      ¬(removeAccountAt removalPoolTwo 0).currentAccountIndexByFamily.claude = -1 := by
  refine ⟨rfl, by decide, by decide⟩

/-- **C7 (amended)** `removeAccount` re-indexes the surviving accounts so
each account's `index` field equals its array position (all other fields
preserved), clamps the round-robin cursor into bounds, and updates each
family-active-index by decrementing it when it referenced a position after
the removed one and resetting it to `-1` when it ends up at or past the new
length; an index that referenced exactly the removed position is *not*
reset but left referencing the account that shifted into that position
(unless it is now past-end, in which case it becomes `-1`). -/
theorem removeAccountAt_spec (s : AMState) (idx : Nat)
    (hidx : idx < s.accounts.length)
    (hne : (s.accounts.eraseIdx idx).length ≠ 0) :
    (∀ i, (removeAccountAt s idx).accounts.get? i =
        ((s.accounts.eraseIdx idx).get? i).map (fun a => { a with index := i })) ∧
      (removeAccountAt s idx).cursor < (removeAccountAt s idx).accounts.length ∧
      (∀ family : ModelFamily,
        (removeAccountAt s idx).currentAccountIndexByFamily.get family =
          (let f := s.currentAccountIndexByFamily.get family
           let f1 := if (idx : Int) < f then f - 1 else f
           if ((removeAccountAt s idx).accounts.length : Int) ≤ f1 then -1 else f1)) := by
  have hres : removeAccountAt s idx =
      { accounts := reindexFrom 0 (s.accounts.eraseIdx idx)
        cursor := (if idx < s.cursor then s.cursor - 1 else s.cursor) %
          (reindexFrom 0 (s.accounts.eraseIdx idx)).length
        currentAccountIndexByFamily :=
          { claude :=
              (let f := s.currentAccountIndexByFamily.claude
               let f1 := if (idx : Int) < f then f - 1 else f
               if ((reindexFrom 0 (s.accounts.eraseIdx idx)).length : Int) ≤ f1 then -1 else f1)
            gemini :=
              (let f := s.currentAccountIndexByFamily.gemini
               let f1 := if (idx : Int) < f then f - 1 else f
               if ((reindexFrom 0 (s.accounts.eraseIdx idx)).length : Int) ≤ f1 then -1 else f1) } } := by
    unfold removeAccountAt
    rw [if_pos hidx]
    rw [if_neg (by rw [reindexFrom_length]; exact hne)]
  have hlen : 0 < (reindexFrom 0 (s.accounts.eraseIdx idx)).length := by
    rw [reindexFrom_length]
    exact Nat.pos_of_ne_zero hne
  refine ⟨?_, ?_, ?_⟩
  · intro i
    rw [hres]
    simpa using reindexFrom_get? (s.accounts.eraseIdx idx) 0 i
  · rw [hres]
    exact Nat.mod_lt _ hlen
  · intro family
    cases family <;> rw [hres] <;> rfl

/-- Witness for the amended C7 theorem at the concrete two-account pool:
the surviving account is re-indexed to position 0, the cursor is in
bounds, and the claude family index ends up at 0 (pointing at the shifted
survivor). -/
theorem removeAccountAt_spec_witness :
    (removeAccountAt removalPoolTwo 0).accounts.get? 0 =
        ((removalPoolTwo.accounts.eraseIdx 0).get? 0).map (fun a => { a with index := 0 }) ∧
      (removeAccountAt removalPoolTwo 0).cursor <
        (removeAccountAt removalPoolTwo 0).accounts.length ∧
      (removeAccountAt removalPoolTwo 0).currentAccountIndexByFamily.get .claude = 0 := by
  have h := removeAccountAt_spec removalPoolTwo 0 (by decide) (by decide)
  exact ⟨h.1 0, h.2.1, (h.2.2 ModelFamily.claude).trans (by decide)⟩

/-! ## Credential store migrations (`src/storage.js`, C9) -/

/-- A v1 persisted account (`AccountStorageV1` entry): scalar rate-limit
state. -/
structure AccountV1 where
  email : Option String := none
  refreshToken : String
  projectId : Option String := none
  managedProjectId : Option String := none
  addedAt : Nat := 0
  lastUsed : Nat := 0
  lastSwitchReason : Option String := none
  isRateLimited : Bool := false
  rateLimitResetTime : Option Nat := none
deriving DecidableEq, Repr

/-- v2 per-family rate-limit state (`RateLimitState`): `claude` and
`gemini` keys. -/
structure RateLimitStateV2 where
  claude : Option Nat := none
  gemini : Option Nat := none
deriving DecidableEq, Repr

/-- A v2 persisted account. -/
structure AccountV2 where
  email : Option String := none
  refreshToken : String
  projectId : Option String := none
  managedProjectId : Option String := none
  addedAt : Nat := 0
  lastUsed : Nat := 0
  lastSwitchReason : Option String := none
  rateLimitResetTimes : Option RateLimitStateV2 := none
deriving DecidableEq, Repr

/-- A v3 persisted account; its rate-limit state uses the three
`QuotaKey`-keyed fields (`RateLimitStateV3`). -/
structure AccountV3 where
  email : Option String := none
  refreshToken : String
  projectId : Option String := none
  managedProjectId : Option String := none
  addedAt : Nat := 0
  lastUsed : Nat := 0
  lastSwitchReason : Option String := none
  rateLimitResetTimes : Option RateLimitTimes := none
deriving DecidableEq, Repr

/-- Per-account body of `migrateV1ToV2`: when the account is marked
rate-limited and its scalar reset time is still in the future, fan the
scalar out to both the `claude` and the `gemini` key; an empty object is
stored as `undefined`.  (JavaScript also requires `rateLimitResetTime` to
be truthy; a reset time of `0` already fails `> Date.now()`.) -/
def migrateAccountV1 (now : Nat) (acc : AccountV1) : AccountV2 :=
  let rateLimitResetTimes : Option RateLimitStateV2 :=
    match acc.rateLimitResetTime with
    | some t =>
      if acc.isRateLimited && decide (now < t) then
        some { claude := some t, gemini := some t }
      else none
    | none => none
  { email := acc.email
    refreshToken := acc.refreshToken
    projectId := acc.projectId
    managedProjectId := acc.managedProjectId
    addedAt := acc.addedAt
    lastUsed := acc.lastUsed
    lastSwitchReason := acc.lastSwitchReason
    rateLimitResetTimes := rateLimitResetTimes }

/-- Per-account body of `migrateV2ToV3`: keep a still-future `claude` time,
rename a still-future `gemini` time to `gemini-antigravity`, drop the rest;
an empty object is stored as `undefined`. -/
def migrateAccountV2 (now : Nat) (acc : AccountV2) : AccountV3 :=
  let claude : Option Nat :=
    match acc.rateLimitResetTimes with
    | some rl =>
      match rl.claude with
      | some t => if now < t then some t else none
      | none => none
    | none => none
  let geminiAntigravity : Option Nat :=
    match acc.rateLimitResetTimes with
    | some rl =>
      match rl.gemini with
      | some t => if now < t then some t else none
      | none => none
    | none => none
  let rateLimitResetTimes : Option RateLimitTimes :=
    if claude = none ∧ geminiAntigravity = none then none
    else some { claude := claude, geminiAntigravity := geminiAntigravity, geminiCli := none }
  { email := acc.email
    refreshToken := acc.refreshToken
    projectId := acc.projectId
    managedProjectId := acc.managedProjectId
    addedAt := acc.addedAt
    lastUsed := acc.lastUsed
    lastSwitchReason := acc.lastSwitchReason
    rateLimitResetTimes := rateLimitResetTimes }

/-- A v1 accounts file. -/
structure StorageV1 where
  accounts : List AccountV1
  activeIndex : Int := 0
deriving DecidableEq, Repr

/-- A v2 accounts file. -/
structure StorageV2 where
  accounts : List AccountV2
  activeIndex : Int := 0
deriving DecidableEq, Repr

/-- A v3 accounts file. -/
structure StorageV3 where
  accounts : List AccountV3
  activeIndex : Int := 0
deriving DecidableEq, Repr

/-- `migrateV1ToV2`. -/
def migrateV1ToV2 (now : Nat) (v1 : StorageV1) : StorageV2 :=
  { accounts := v1.accounts.map (migrateAccountV1 now), activeIndex := v1.activeIndex }

/-- `migrateV2ToV3`. -/
def migrateV2ToV3 (now : Nat) (v2 : StorageV2) : StorageV3 :=
  { accounts := v2.accounts.map (migrateAccountV2 now), activeIndex := v2.activeIndex }

theorem migrateAccountV2_rl (now : Nat) (acc : AccountV2) :
    ((migrateAccountV2 now acc).rateLimitResetTimes.bind (fun rl => rl.claude) =
      (acc.rateLimitResetTimes.bind (fun rl => rl.claude)).bind
        (fun t => if now < t then some t else none)) ∧
    ((migrateAccountV2 now acc).rateLimitResetTimes.bind (fun rl => rl.geminiAntigravity) =
      (acc.rateLimitResetTimes.bind (fun rl => rl.gemini)).bind
        (fun t => if now < t then some t else none)) ∧
    ((migrateAccountV2 now acc).rateLimitResetTimes.bind (fun rl => rl.geminiCli) = none) := by
  unfold migrateAccountV2
  cases hrt : acc.rateLimitResetTimes with
  | none => simp
  | some rl =>
    cases hc : rl.claude with
    | none =>
      cases hg : rl.gemini with
      | none => simp [hc, hg]
      | some tg => by_cases h2 : now < tg <;> simp [hc, hg, h2]
    | some tc =>
      cases hg : rl.gemini with
      | none => by_cases h1 : now < tc <;> simp [hc, hg, h1]
      | some tg =>
        by_cases h1 : now < tc <;> by_cases h2 : now < tg <;> simp [hc, hg, h1, h2]

/-- **C9** Loading a v1 file migrates it (`migrateV1ToV2` then
`migrateV2ToV3`): a v1 account's scalar `rateLimitResetTime`, when the
account is marked rate-limited and the time is still in the future, is
copied to both the `claude` and the `gemini` key of the v2 shape (and is
dropped otherwise); migrating a v2 file renames the `gemini` key to
`gemini-antigravity` and drops `claude`/`gemini` reset times that are not
in the future; all other per-account fields (email, refreshToken,
projectId, managedProjectId, addedAt, lastUsed, lastSwitchReason) are
preserved unchanged by both steps. -/
theorem accountsFile_migration_spec (now : Nat) :
    (∀ v1 : StorageV1, (migrateV1ToV2 now v1).accounts =
        v1.accounts.map (migrateAccountV1 now)) ∧
    (∀ v2 : StorageV2, (migrateV2ToV3 now v2).accounts =
        v2.accounts.map (migrateAccountV2 now)) ∧
    (∀ acc : AccountV1,
      (∀ t, acc.rateLimitResetTime = some t → acc.isRateLimited = true → now < t →
        (migrateAccountV1 now acc).rateLimitResetTimes =
          some { claude := some t, gemini := some t }) ∧
      (¬(acc.isRateLimited = true ∧ ∃ t, acc.rateLimitResetTime = some t ∧ now < t) →
        (migrateAccountV1 now acc).rateLimitResetTimes = none) ∧
      (migrateAccountV1 now acc).email = acc.email ∧
      (migrateAccountV1 now acc).refreshToken = acc.refreshToken ∧
      (migrateAccountV1 now acc).projectId = acc.projectId ∧
      (migrateAccountV1 now acc).managedProjectId = acc.managedProjectId ∧
      (migrateAccountV1 now acc).addedAt = acc.addedAt ∧
      (migrateAccountV1 now acc).lastUsed = acc.lastUsed ∧
      (migrateAccountV1 now acc).lastSwitchReason = acc.lastSwitchReason) ∧
    (∀ acc : AccountV2,
      ((migrateAccountV2 now acc).rateLimitResetTimes.bind (fun rl => rl.claude) =
        (acc.rateLimitResetTimes.bind (fun rl => rl.claude)).bind
          (fun t => if now < t then some t else none)) ∧
      ((migrateAccountV2 now acc).rateLimitResetTimes.bind (fun rl => rl.geminiAntigravity) =
        (acc.rateLimitResetTimes.bind (fun rl => rl.gemini)).bind
          (fun t => if now < t then some t else none)) ∧
      ((migrateAccountV2 now acc).rateLimitResetTimes.bind (fun rl => rl.geminiCli) = none) ∧
      (migrateAccountV2 now acc).email = acc.email ∧
      (migrateAccountV2 now acc).refreshToken = acc.refreshToken ∧
      (migrateAccountV2 now acc).projectId = acc.projectId ∧
      (migrateAccountV2 now acc).managedProjectId = acc.managedProjectId ∧
      (migrateAccountV2 now acc).addedAt = acc.addedAt ∧
      (migrateAccountV2 now acc).lastUsed = acc.lastUsed ∧
      (migrateAccountV2 now acc).lastSwitchReason = acc.lastSwitchReason) := by
  refine ⟨fun v1 => rfl, fun v2 => rfl, fun acc => ?_, fun acc => ?_⟩
  · refine ⟨?_, ?_, rfl, rfl, rfl, rfl, rfl, rfl, rfl⟩
    · intro t ht hrl hfut
      simp [migrateAccountV1, ht, hrl, hfut]
    · intro hnot
      unfold migrateAccountV1
      cases ht : acc.rateLimitResetTime with
      | none => rfl
      | some t =>
        by_cases hrl : acc.isRateLimited = true
        · by_cases hfut : now < t
          · exact absurd ⟨hrl, t, ht, hfut⟩ hnot
          · simp [hrl, hfut]
        · simp [show acc.isRateLimited = false from Bool.eq_false_iff.mpr hrl]
  · have h := migrateAccountV2_rl now acc
    exact ⟨h.1, h.2.1, h.2.2, rfl, rfl, rfl, rfl, rfl, rfl, rfl⟩

/-- Witness for C9 at a concrete v1 account marked rate-limited with a
future scalar reset time. -/
theorem accountsFile_migration_spec_witness :
    (migrateAccountV1 1000
        { refreshToken := "rt-1", isRateLimited := true,
          rateLimitResetTime := some 5000 }).rateLimitResetTimes =
      some { claude := some 5000, gemini := some 5000 } := by
  exact ((accountsFile_migration_spec 1000).2.2.1
    { refreshToken := "rt-1", isRateLimited := true, rateLimitResetTime := some 5000 }).1
    5000 rfl rfl (by omega)

/-! ## Signature cache (`src/plugin/cache/signature-cache.js`, C3) -/

/-- A cache entry `{ value, timestamp }` (ms). -/
structure CacheEntry where
  value : String
  timestamp : Nat
deriving DecidableEq, Repr

/-- `Map.set`: replace the binding for the key if present, else append. -/
def mapSet (m : List (String × CacheEntry)) (k : String) (v : CacheEntry) :
    List (String × CacheEntry) :=
  match m with
  | [] => [(k, v)]
  | (k', v') :: rest => if k' = k then (k, v) :: rest else (k', v') :: mapSet rest k v

/-- `Map.get`. -/
def mapGet (m : List (String × CacheEntry)) (k : String) : Option CacheEntry :=
  match m with
  | [] => none
  | (k', v') :: rest => if k' = k then some v' else mapGet rest k

/-- `Map.delete`. -/
def mapDelete (m : List (String × CacheEntry)) (k : String) :
    List (String × CacheEntry) :=
  m.filter (fun kv => kv.1 ≠ k)

/-- The state of a `SignatureCache`: the in-memory map, the `entries`
object of the on-disk JSON file, the two TTLs and the `enabled`/`dirty`
flags.  Timers and statistics are omitted. -/
structure SignatureCacheState where
  cache : List (String × CacheEntry) := []
  diskEntries : List (String × CacheEntry) := []
  memoryTtlMs : Nat
  diskTtlMs : Nat
  enabled : Bool := true
  dirty : Bool := false
deriving DecidableEq, Repr

/-- `SignatureCache.store(key, signature)` at time `now`. -/
def SignatureCacheState.store (s : SignatureCacheState) (now : Nat) (key : String)
    (signature : String) : SignatureCacheState :=
  if !s.enabled then s
  else { s with cache := mapSet s.cache key ⟨signature, now⟩, dirty := true }

/-- `SignatureCache.retrieve(key)` at time `now`: consults only the
in-memory map; an entry older than the memory TTL is deleted and the
lookup misses.  Returns the result together with the updated state. -/
def SignatureCacheState.retrieve (s : SignatureCacheState) (now : Nat) (key : String) :
    Option String × SignatureCacheState :=
  if !s.enabled then (none, s)
  else
    match mapGet s.cache key with
    | some entry =>
      if now - entry.timestamp ≤ s.memoryTtlMs then (some entry.value, s)
      else (none, { s with cache := mapDelete s.cache key })
    | none => (none, s)

/-- `SignatureCache.saveToDisk()` at time `now`: keep on-disk entries
younger than the disk TTL, merge the memory entries over them (memory wins
on key collision), clear `dirty`. -/
def SignatureCacheState.saveToDisk (s : SignatureCacheState) (now : Nat) :
    SignatureCacheState :=
  let validDiskEntries :=
    s.diskEntries.filter (fun kv => now - kv.2.timestamp ≤ s.diskTtlMs)
  let mergedEntries := s.cache.foldl (fun m kv => mapSet m kv.1 kv.2) validDiskEntries
  { s with diskEntries := mergedEntries, dirty := false }

/-- `SignatureCache.flush()` at time `now`. -/
def SignatureCacheState.flush (s : SignatureCacheState) (now : Nat) : SignatureCacheState :=
  if !s.enabled then s else s.saveToDisk now

theorem mapGet_mapSet_self (m : List (String × CacheEntry)) (k : String) (v : CacheEntry) :
    mapGet (mapSet m k v) k = some v := by
  induction m with
  | nil => simp [mapSet, mapGet]
  | cons kv rest ih =>
    obtain ⟨k', v'⟩ := kv
    by_cases h : k' = k <;> simp [mapSet, mapGet, h, ih]

theorem mapGet_mapSet_ne (m : List (String × CacheEntry)) (k k' : String) (v : CacheEntry)
    (h : k' ≠ k) : mapGet (mapSet m k v) k' = mapGet m k' := by
  have hne : ¬k = k' := fun hh => h hh.symm
  induction m with
  | nil => simp [mapSet, mapGet, hne]
  | cons kv rest ih =>
    obtain ⟨k0, v0⟩ := kv
    by_cases h0 : k0 = k
    · subst h0
      simp [mapSet, mapGet, hne]
    · simp [mapSet, mapGet, h0, ih]

theorem mapGet_foldl_mapSet_not_mem (l : List (String × CacheEntry)) (k : String) :
    ∀ init, k ∉ l.map Prod.fst →
      mapGet (l.foldl (fun m kv => mapSet m kv.1 kv.2) init) k = mapGet init k := by
  induction l with
  | nil => intro init _; rfl
  | cons kv rest ih =>
    intro init hk
    obtain ⟨k0, v0⟩ := kv
    simp only [List.map_cons, List.mem_cons] at hk
    push_neg at hk
    simp only [List.foldl_cons]
    rw [ih (mapSet init k0 v0) hk.2, mapGet_mapSet_ne init k0 k v0 hk.1]

theorem mapGet_foldl_mapSet_mem (l : List (String × CacheEntry)) (k : String) :
    ∀ (init : List (String × CacheEntry)) (entry : CacheEntry),
      (l.map Prod.fst).Nodup → mapGet l k = some entry →
      mapGet (l.foldl (fun m kv => mapSet m kv.1 kv.2) init) k = some entry := by
  induction l with
  | nil => intro init entry _ hget; simp [mapGet] at hget
  | cons kv rest ih =>
    intro init entry hnodup hget
    obtain ⟨k0, v0⟩ := kv
    simp only [List.map_cons, List.nodup_cons] at hnodup
    by_cases h0 : k0 = k
    · subst h0
      have hv : v0 = entry := by simpa [mapGet] using hget
      subst hv
      simp only [List.foldl_cons]
      rw [mapGet_foldl_mapSet_not_mem rest k0 (mapSet init k0 v0) hnodup.1,
        mapGet_mapSet_self]
    · have hget2 : mapGet rest k = some entry := by simpa [mapGet, h0] using hget
      simp only [List.foldl_cons]
      exact ih (mapSet init k0 v0) entry hnodup.2 hget2

/-- Concrete cache state with the default TTLs (1 h memory, 48 h disk). -/
def sigCacheDefaults : SignatureCacheState :=
  { memoryTtlMs := 3600000, diskTtlMs := 172800000 }

/-- **C3 counterexample** Store a signature at time 0 and let two hours
pass: the entry is then older than `memory_ttl` (1 h) but younger than
`disk_ttl` (48 h), yet `retrieve` after a `flush()` returns `null`, not the
stored signature — `retrieve` only consults the in-memory map and deletes
the aged entry, even though the flushed disk file still holds it. -/
theorem signatureCache_disk_retrieve_claim_false :
    ((((sigCacheDefaults.store 0 "key-1" "sig-1").flush 7200000).retrieve
        7200000 "key-1").fst = none) ∧
      sigCacheDefaults.memoryTtlMs < 7200000 - 0 ∧
      7200000 - 0 ≤ sigCacheDefaults.diskTtlMs ∧
      mapGet (((sigCacheDefaults.store 0 "key-1" "sig-1").flush 7200000).diskEntries)
          "key-1" = some ⟨"sig-1", 0⟩ := by
  refine ⟨by decide, by decide, by decide, by decide⟩

/-- **C3 (amended)** For every key and signature stored in the
`SignatureCache`, `retrieve(key)` within `memory_ttl` of the store returns
exactly the stored signature.  For a key whose entry is older than
`memory_ttl`, however, `retrieve(key)` returns `null` even after a
`flush()` — `retrieve` never consults the disk entries — although, when
the entry is younger than `disk_ttl` at flush time, the flush does merge
it into the on-disk entries (memory wins on collision). -/
theorem signatureCache_store_retrieve_spec (s : SignatureCacheState)
    (key signature : String) (t now : Nat) (henabled : s.enabled = true) :
    (now - t ≤ s.memoryTtlMs →
      ((s.store t key signature).retrieve now key).fst = some signature) ∧
    (∀ entry, mapGet s.cache key = some entry →
      s.memoryTtlMs < now - entry.timestamp →
      ((s.flush now).retrieve now key).fst = none ∧
      ((s.cache.map Prod.fst).Nodup → now - entry.timestamp ≤ s.diskTtlMs →
        mapGet ((s.flush now).diskEntries) key = some entry)) := by
  constructor
  · intro h
    unfold SignatureCacheState.store SignatureCacheState.retrieve
    simp only [henabled, Bool.not_true, Bool.false_eq_true, if_false, ite_false]
    rw [mapGet_mapSet_self]
    simp [h]
  · intro entry hget hage
    have hflushcache : (s.flush now).cache = s.cache := by
      unfold SignatureCacheState.flush SignatureCacheState.saveToDisk
      simp only [henabled]
      split <;> rfl
    have hflushen : (s.flush now).enabled = s.enabled := by
      unfold SignatureCacheState.flush SignatureCacheState.saveToDisk
      split <;> rfl
    have hflushmem : (s.flush now).memoryTtlMs = s.memoryTtlMs := by
      unfold SignatureCacheState.flush SignatureCacheState.saveToDisk
      split <;> rfl
    constructor
    · unfold SignatureCacheState.retrieve
      rw [hflushcache, hflushen, hflushmem, henabled, hget]
      simp only [Bool.not_true, Bool.false_eq_true, if_false, ite_false]
      rw [if_neg (by omega)]
    · intro hnodup hdisk
      unfold SignatureCacheState.flush
      rw [henabled]
      simp only [Bool.not_true, Bool.false_eq_true, if_false, ite_false]
      unfold SignatureCacheState.saveToDisk
      exact mapGet_foldl_mapSet_mem s.cache key _ entry hnodup hget

/-- Witness for the amended C3 theorem: round trip at the default TTLs
within the memory TTL, and the disk behavior at an aged entry. -/
theorem signatureCache_store_retrieve_spec_witness :
    (((sigCacheDefaults.store 0 "key-2" "sig-2").retrieve 1000 "key-2").fst =
        some "sig-2") ∧
      ((((sigCacheDefaults.store 0 "key-2" "sig-2").flush 7200000).retrieve
          7200000 "key-2").fst = none) := by
  refine ⟨(signatureCache_store_retrieve_spec sigCacheDefaults "key-2" "sig-2" 0 1000
    (by decide)).1 (by decide), ?_⟩
  have h := (signatureCache_store_retrieve_spec (sigCacheDefaults.store 0 "key-2" "sig-2")
    "key-2" "sig-2" 0 7200000 (by decide)).2 ⟨"sig-2", 0⟩ (by decide) (by decide)
  exact h.1

/-! ## Request preparation: Gemini-wire conversation model
(`src/plugin/request.js`, `src/plugin/transform/claude.js`) -/

/-- `MIN_SIGNATURE_LENGTH` (empirical floor for valid thinking
signatures). -/
def MIN_SIGNATURE_LENGTH : Nat := 50

/-- A `functionCall` part payload: the fields read by the pairing passes. -/
structure FunctionCall where
  name : Option String := none
  id : Option String := none
deriving DecidableEq, Repr

/-- A `functionResponse` part payload. -/
structure FunctionResponse where
  name : Option String := none
  id : Option String := none
deriving DecidableEq, Repr

/-- A Gemini-wire content part, holding exactly the JSON fields the
embedded functions read: `thought`, `type`, `text`, `thinking`,
`thoughtSignature`, `signature`, `functionCall`, `functionResponse`, and
the presence of a `tool_use`/`toolUse` key as a flag. -/
structure Part where
  thought : Bool := false
  type : Option String := none
  text : Option String := none
  thinking : Option String := none
  thoughtSignature : Option String := none
  signature : Option String := none
  functionCall : Option FunctionCall := none
  functionResponse : Option FunctionResponse := none
  tool_use : Bool := false
deriving DecidableEq, Repr

/-- A Gemini-wire `contents[]` element. -/
structure Content where
  role : String
  parts : List Part
deriving DecidableEq, Repr

/-- `String.toLowerCase` on the underlying character list. -/
def lowerChars (s : String) : List Char :=
  s.data.map Char.toLower

/-- Occurrence of `pat` in `s` (JavaScript `String.includes`), on
character lists. -/
def charsInclude : List Char → List Char → Bool
  | [], pat => pat.isEmpty
  | s@(_ :: rest), pat => pat.isPrefixOf s || charsInclude rest pat

/-- `model.toLowerCase().includes(sub)`. -/
def strIncludes (s sub : String) : Bool :=
  charsInclude (lowerChars s) sub.data

/-- `isClaudeModel` (`transform/claude.js`). -/
def isClaudeModel (model : String) : Bool :=
  strIncludes model "claude"

/-- `isClaudeThinkingModel` (`transform/claude.js`). -/
def isClaudeThinkingModel (model : String) : Bool :=
  strIncludes model "claude" && strIncludes model "thinking"

/-- `isGeminiToolUsePart`: the part carries a `functionCall` or a
`tool_use`/`toolUse` key. -/
def isGeminiToolUsePart (p : Part) : Bool :=
  p.functionCall.isSome || p.tool_use

/-- `isGeminiThinkingPart`: `thought === true` or `type` is
`thinking`/`reasoning`. -/
def isGeminiThinkingPart (p : Part) : Bool :=
  p.thought || p.type == some "thinking" || p.type == some "reasoning"

/-- `ensureThoughtSignature(part, sessionId)` with the signature cache for
the session key abstracted as `cache : text → Option signature`: attach a
cached signature to a thinking part that lacks one. -/
def ensureThoughtSignature (cache : String → Option String) (p : Part) : Part :=
  let text :=
    match p.text with
    | some t => t
    | none => match p.thinking with | some t => t | none => ""
  if text = "" then p
  else if p.thought then
    match p.thoughtSignature with
    | some _ => p
    | none =>
      match cache text with
      | some cached => { p with thoughtSignature := some cached }
      | none => p
  else if (p.type == some "thinking" || p.type == some "reasoning") &&
      p.signature == none then
    match cache text with
    | some cached => { p with signature := some cached }
    | none => p
  else p

/-- `hasSignedThinkingPart`: a thinking part carrying a signature of at
least `MIN_SIGNATURE_LENGTH` characters. -/
def hasSignedThinkingPart (p : Part) : Bool :=
  if p.thought then
    match p.thoughtSignature with
    | some s => MIN_SIGNATURE_LENGTH ≤ s.length
    | none => false
  else if p.type == some "thinking" || p.type == some "reasoning" then
    match p.signature with
    | some s => MIN_SIGNATURE_LENGTH ≤ s.length
    | none => false
  else false

/-- Per-content body of `ensureThinkingBeforeToolUseInContents`:
for a model/assistant content with tool use, restore signatures on its
thinking parts, move them to the front when one is signed, otherwise
inject the session's last signed thinking (when cached), dropping the
unsigned thinking parts. -/
def ensureThinkingContent (cache : String → Option String)
    (lastThinking : Option (String × String)) (content : Content) : Content :=
  if content.role ≠ "model" ∧ content.role ≠ "assistant" then content
  else
    let parts := content.parts
    if !parts.any isGeminiToolUsePart then content
    else
      let thinkingParts := (parts.filter isGeminiThinkingPart).map (ensureThoughtSignature cache)
      let otherParts := parts.filter (fun p => !isGeminiThinkingPart p)
      if thinkingParts.any hasSignedThinkingPart then
        { content with parts := thinkingParts ++ otherParts }
      else
        match lastThinking with
        | none => content
        | some (ltText, ltSig) =>
          let injected : Part :=
            { thought := true, text := some ltText, thoughtSignature := some ltSig }
          { content with parts := injected :: otherParts }

/-- `ensureThinkingBeforeToolUseInContents(contents, signatureSessionKey)`;
the `lastSignedThinkingBySessionKey` entry for the session key is
abstracted as `lastThinking : Option (text × signature)`. -/
def ensureThinkingBeforeToolUseInContents (cache : String → Option String)
    (lastThinking : Option (String × String)) (contents : List Content) : List Content :=
  contents.map (ensureThinkingContent cache lastThinking)

/-- Per-part body of `deepFilterThinkingBlocks`. -/
def deepFilterPart (cache : String → Option String) (p : Part) : Option Part :=
  if isGeminiThinkingPart p then
    let p2 := ensureThoughtSignature cache p
    if hasSignedThinkingPart p2 then some p2 else none
  else some p

/-- Modelled from the spec: the implementation of
`deepFilterThinkingBlocks` (`src/plugin/request-helpers.js`) is not in the
repository snapshot — only its type declaration is.  Per §4.I of the spec,
before sending, a thinking block lacking a signature gets a cache lookup
by its verbatim text, and any thinking block that is still unsigned (no
signature of at least `MIN_SIGNATURE_LENGTH` characters) is stripped,
because the upstream rejects unsigned thinking. -/
def deepFilterThinkingBlocks (cache : String → Option String)
    (contents : List Content) : List Content :=
  contents.map fun content =>
    { content with parts := content.parts.filterMap (deepFilterPart cache) }

/-- `hasToolUseInContents`. -/
def hasToolUseInContents (contents : List Content) : Bool :=
  contents.any fun c => c.parts.any isGeminiToolUsePart

/-- `hasSignedThinkingInContents`. -/
def hasSignedThinkingInContents (contents : List Content) : Bool :=
  contents.any fun c => c.parts.any hasSignedThinkingPart

/-- The thinking-block discipline of `prepareAntigravityRequest` on a
Gemini-wire `contents[]` payload (steps 1–2 of the Claude branch): strip
or cache-restore unsigned thinking first, then (thinking models only)
inject signed thinking before tool use. -/
def prepareClaudeThinkingContents (model : String) (cache : String → Option String)
    (lastThinking : Option (String × String)) (contents : List Content) : List Content :=
  if isClaudeModel model then
    let step1 := deepFilterThinkingBlocks cache contents
    if isClaudeThinkingModel model then
      ensureThinkingBeforeToolUseInContents cache lastThinking step1
    else step1
  else contents

/-- The `needsSignedThinkingWarmup` computation of
`prepareAntigravityRequest` (step 3 of the Claude branch, contents path):
after the thinking steps, a Claude thinking model needs a warmup iff the
processed conversation has tool use, has no signed thinking part, and no
last-signed-thinking entry is cached for the session key. -/
def needsSignedThinkingWarmup (model : String) (cache : String → Option String)
    (lastThinking : Option (String × String)) (contents : List Content) : Bool :=
  if isClaudeThinkingModel model then
    let processed := prepareClaudeThinkingContents model cache lastThinking contents
    hasToolUseInContents processed && !hasSignedThinkingInContents processed &&
      !lastThinking.isSome
  else false

/-! ### Thinking-block discipline lemmas (C2) -/

/-- A part that is not a thinking part is never "signed thinking". -/
theorem hasSignedThinkingPart_false_of_not_thinking (p : Part)
    (h : isGeminiThinkingPart p = false) : hasSignedThinkingPart p = false := by
  unfold isGeminiThinkingPart at h
  unfold hasSignedThinkingPart
  simp only [Bool.or_eq_false_iff] at h
  rw [h.1.1, if_neg (by simp)]
  rw [if_neg (by simp [h.1.2, h.2])]

/-- `ensureThoughtSignature` does not change a part that is already signed. -/
theorem ensureThoughtSignature_of_signed (cache : String → Option String) (p : Part)
    (h : hasSignedThinkingPart p = true) : ensureThoughtSignature cache p = p := by
  unfold hasSignedThinkingPart at h
  unfold ensureThoughtSignature
  by_cases htext : (match p.text with
    | some t => t
    | none => match p.thinking with | some t => t | none => "") = ""
  · rw [if_pos htext]
  · rw [if_neg htext]
    by_cases hth : p.thought
    · rw [if_pos hth]
      rw [if_pos hth] at h
      cases hsig : p.thoughtSignature with
      | none => rw [hsig] at h; simp at h
      | some s => rfl
    · rw [if_neg hth]
      rw [if_neg hth] at h
      by_cases hty : (p.type == some "thinking" || p.type == some "reasoning") = true
      · rw [if_pos hty] at h
        cases hsig : p.signature with
        | none => rw [hsig] at h; simp at h
        | some s => rw [if_neg (by simp [hty, hsig])]
      · rw [if_neg hty] at h
        simp at h

/-- Every part surviving `deepFilterThinkingBlocks` passes the
"no unsigned thinking" check. -/
theorem deepFilterPart_signed (cache : String → Option String) (p q : Part)
    (h : deepFilterPart cache p = some q) :
    (!isGeminiThinkingPart q || hasSignedThinkingPart q) = true := by
  unfold deepFilterPart at h
  by_cases hth : isGeminiThinkingPart p = true
  · rw [if_pos hth] at h
    by_cases hs : hasSignedThinkingPart (ensureThoughtSignature cache p) = true
    · rw [if_pos hs] at h
      cases h
      simp [hs]
    · rw [if_neg hs] at h
      cases h
  · rw [if_neg hth] at h
    cases h
    have := hasSignedThinkingPart_false_of_not_thinking p (by simpa using hth)
    simp [Bool.eq_false_iff.mp (by simpa using hth)]

theorem deepFilter_all_signed (cache : String → Option String) (contents : List Content) :
    ((deepFilterThinkingBlocks cache contents).all fun c =>
      c.parts.all fun p => !isGeminiThinkingPart p || hasSignedThinkingPart p) = true := by
  rw [List.all_eq_true]
  intro c hc
  rw [deepFilterThinkingBlocks, List.mem_map] at hc
  obtain ⟨c0, _, rfl⟩ := hc
  rw [List.all_eq_true]
  intro p hp
  rw [List.mem_filterMap] at hp
  obtain ⟨p0, _, hp0⟩ := hp
  exact deepFilterPart_signed cache p0 p hp0

/-- `ensureThinkingContent` preserves the "no unsigned thinking" check. -/
theorem ensureThinkingContent_all_signed (cache : String → Option String)
    (lastThinking : Option (String × String)) (c : Content)
    (hlast : ∀ t sig, lastThinking = some (t, sig) → MIN_SIGNATURE_LENGTH ≤ sig.length)
    (hall : (c.parts.all fun p => !isGeminiThinkingPart p || hasSignedThinkingPart p) = true) :
    ((ensureThinkingContent cache lastThinking c).parts.all fun p =>
      !isGeminiThinkingPart p || hasSignedThinkingPart p) = true := by
  rw [List.all_eq_true] at hall
  unfold ensureThinkingContent
  by_cases hrole : c.role ≠ "model" ∧ c.role ≠ "assistant"
  · rw [if_pos hrole]
    rw [List.all_eq_true]; exact hall
  · rw [if_neg hrole]
    by_cases htool : (!c.parts.any isGeminiToolUsePart) = true
    · rw [if_pos htool]
      rw [List.all_eq_true]; exact hall
    · rw [if_neg htool]
      have hthink : ∀ p ∈ c.parts.filter isGeminiThinkingPart,
          ensureThoughtSignature cache p = p ∧ hasSignedThinkingPart p = true := by
        intro p hp
        rw [List.mem_filter] at hp
        have hcheck := hall p hp.1
        rw [hp.2] at hcheck
        simp only [Bool.not_true, Bool.false_or] at hcheck
        exact ⟨ensureThoughtSignature_of_signed cache p hcheck, hcheck⟩
      by_cases hsigned :
          (((c.parts.filter isGeminiThinkingPart).map (ensureThoughtSignature cache)).any
            hasSignedThinkingPart) = true
      · rw [if_pos hsigned]
        rw [List.all_eq_true]
        intro p hp
        rw [List.mem_append] at hp
        rcases hp with hp | hp
        · rw [List.mem_map] at hp
          obtain ⟨p0, hp0, rfl⟩ := hp
          have h := hthink p0 hp0
          rw [h.1]
          simp [h.2]
        · exact hall p (List.mem_filter.mp hp).1
      · rw [if_neg hsigned]
        cases hlt : lastThinking with
        | none =>
          rw [List.all_eq_true]; exact hall
        | some ts =>
          obtain ⟨ltText, ltSig⟩ := ts
          dsimp only
          rw [List.all_eq_true]
          intro p hp
          rw [List.mem_cons] at hp
          rcases hp with rfl | hp
          · have hsig := hlast ltText ltSig hlt
            simp [isGeminiThinkingPart, hasSignedThinkingPart, hsig]
          · exact hall p (List.mem_filter.mp hp).1

/-- **C2** For every Claude-model conversation prepared by the
thinking-block discipline of `prepareAntigravityRequest` (keep_thinking
on), no unsigned thinking part remains: every thinking part still present
carries a signature of at least 50 characters (from the input or restored
from the signature cache), all others having been removed.  (The
last-signed-thinking entry, harvested from upstream responses, is assumed
to carry a well-formed signature.) -/
theorem prepareClaude_no_unsigned_thinking (model : String)
    (cache : String → Option String) (lastThinking : Option (String × String))
    (contents : List Content)
    (hclaude : isClaudeModel model = true)
    (hlast : ∀ t sig, lastThinking = some (t, sig) → MIN_SIGNATURE_LENGTH ≤ sig.length) :
    ((prepareClaudeThinkingContents model cache lastThinking contents).all fun c =>
      c.parts.all fun p => !isGeminiThinkingPart p || hasSignedThinkingPart p) = true := by
  unfold prepareClaudeThinkingContents
  rw [if_pos hclaude]
  by_cases hthinking : isClaudeThinkingModel model = true
  · rw [if_pos hthinking]
    have hstep1 := deepFilter_all_signed cache contents
    rw [List.all_eq_true] at hstep1 ⊢
    intro c hc
    rw [ensureThinkingBeforeToolUseInContents, List.mem_map] at hc
    obtain ⟨c0, hc0, rfl⟩ := hc
    exact ensureThinkingContent_all_signed cache lastThinking c0 hlast (hstep1 c0 hc0)
  · rw [if_neg hthinking]
    exact deepFilter_all_signed cache contents

/-- Witness for C2: a Claude thinking conversation with one unsigned and
one signed thinking part; the unsigned one is stripped, the signed one
survives. -/
theorem prepareClaude_no_unsigned_thinking_witness :
    ((prepareClaudeThinkingContents "claude-sonnet-4-5-thinking" (fun _ => none)
        (some ("warm thoughts", String.mk (List.replicate 60 'x')))
        [ { role := "model",
            parts :=
              [ { thought := true, text := some "unsigned thought" },
                { thought := true, text := some "signed thought",
                  thoughtSignature := some (String.mk (List.replicate 64 's')) },
                { functionCall := some { name := some "read_file" } } ] } ]).all fun c =>
      c.parts.all fun p => !isGeminiThinkingPart p || hasSignedThinkingPart p) = true := by
  exact prepareClaude_no_unsigned_thinking "claude-sonnet-4-5-thinking" (fun _ => none)
    (some ("warm thoughts", String.mk (List.replicate 60 'x')))
    [ { role := "model",
        parts :=
          [ { thought := true, text := some "unsigned thought" },
            { thought := true, text := some "signed thought",
              thoughtSignature := some (String.mk (List.replicate 64 's')) },
            { functionCall := some { name := some "read_file" } } ] } ]
    (by decide)
    (by intro t sig h; injection h with h1; cases h1; decide)

/-! ### Warmup-flag lemmas (C10) -/

/-- The claim's reading of "no signed thinking block": the original
conversation has a thinking part that carries, or can be restored from the
signature cache to carry, a signature of at least `MIN_SIGNATURE_LENGTH`
characters. -/
def hasRestorableSignedThinking (cache : String → Option String)
    (contents : List Content) : Bool :=
  contents.any fun c => c.parts.any fun p =>
    isGeminiThinkingPart p && hasSignedThinkingPart (ensureThoughtSignature cache p)

theorem ensureThoughtSignature_fields (cache : String → Option String) (p : Part) :
    (ensureThoughtSignature cache p).functionCall = p.functionCall ∧
    (ensureThoughtSignature cache p).tool_use = p.tool_use ∧
    (ensureThoughtSignature cache p).thought = p.thought ∧
    (ensureThoughtSignature cache p).type = p.type := by
  unfold ensureThoughtSignature
  dsimp only
  repeat' split
  all_goals exact ⟨rfl, rfl, rfl, rfl⟩

theorem isGeminiToolUsePart_ensure (cache : String → Option String) (p : Part) :
    isGeminiToolUsePart (ensureThoughtSignature cache p) = isGeminiToolUsePart p := by
  have h := ensureThoughtSignature_fields cache p
  unfold isGeminiToolUsePart
  rw [h.1, h.2.1]

theorem any_congr_mem (l : List α) (f g : α → Bool) (h : ∀ a ∈ l, f a = g a) :
    l.any f = l.any g := by
  induction l with
  | nil => rfl
  | cons a rest ih =>
    simp only [List.any_cons]
    rw [h a (List.mem_cons_self a rest), ih (fun b hb => h b (List.mem_cons_of_mem a hb))]

theorem any_partition (q pr : Part → Bool) (l : List Part) :
    ((l.filter q).any pr || (l.filter (fun p => !q p)).any pr) = l.any pr := by
  induction l with
  | nil => rfl
  | cons p rest ih =>
    by_cases hq : q p = true
    · have h2 : ¬((!q p) = true) := by simp [hq]
      rw [List.filter_cons_of_pos hq,
        List.filter_cons_of_neg (p := fun x => !q x) (a := p) h2, List.any_cons,
        Bool.or_assoc, ih, List.any_cons]
    · have h2 : (!q p) = true := by simp [show q p = false by simpa using hq]
      rw [List.filter_cons_of_neg hq,
        List.filter_cons_of_pos (p := fun x => !q x) (a := p) h2, List.any_cons,
        List.any_cons, ← ih, Bool.or_left_comm]

theorem filterMap_any_toolUse (cache : String → Option String) (parts : List Part)
    (hwf : ∀ p ∈ parts, ¬(isGeminiThinkingPart p = true ∧ isGeminiToolUsePart p = true)) :
    (parts.filterMap (deepFilterPart cache)).any isGeminiToolUsePart =
      parts.any isGeminiToolUsePart := by
  induction parts with
  | nil => rfl
  | cons p rest ih =>
    have hwfr : ∀ q ∈ rest, ¬(isGeminiThinkingPart q = true ∧ isGeminiToolUsePart q = true) :=
      fun q hq => hwf q (List.mem_cons_of_mem p hq)
    simp only [List.filterMap_cons]
    cases hf : deepFilterPart cache p with
    | none =>
      have hpthink : isGeminiThinkingPart p = true := by
        by_contra h
        unfold deepFilterPart at hf
        rw [if_neg h] at hf
        cases hf
      have hptool : isGeminiToolUsePart p = false := by
        by_contra h
        exact hwf p (List.mem_cons_self p rest) ⟨hpthink, by simpa using h⟩
      simp only [List.any_cons, hptool, Bool.false_or]
      exact ih hwfr
    | some q =>
      have hq : isGeminiToolUsePart q = isGeminiToolUsePart p := by
        unfold deepFilterPart at hf
        by_cases hth : isGeminiThinkingPart p = true
        · rw [if_pos hth] at hf
          by_cases hs : hasSignedThinkingPart (ensureThoughtSignature cache p) = true
          · rw [if_pos hs] at hf
            cases hf
            exact isGeminiToolUsePart_ensure cache p
          · rw [if_neg hs] at hf
            cases hf
        · rw [if_neg hth] at hf
          cases hf
          rfl
      simp only [List.any_cons, hq]
      rw [ih hwfr]

theorem filterMap_any_signed (cache : String → Option String) (parts : List Part) :
    (parts.filterMap (deepFilterPart cache)).any hasSignedThinkingPart =
      parts.any (fun p => isGeminiThinkingPart p &&
        hasSignedThinkingPart (ensureThoughtSignature cache p)) := by
  induction parts with
  | nil => rfl
  | cons p rest ih =>
    simp only [List.filterMap_cons]
    by_cases hth : isGeminiThinkingPart p = true
    · by_cases hs : hasSignedThinkingPart (ensureThoughtSignature cache p) = true
      · have hf : deepFilterPart cache p = some (ensureThoughtSignature cache p) := by
          unfold deepFilterPart
          rw [if_pos hth, if_pos hs]
        rw [hf]
        simp only [List.any_cons, hs, hth, Bool.true_and, Bool.true_or]
      · have hf : deepFilterPart cache p = none := by
          unfold deepFilterPart
          rw [if_pos hth, if_neg hs]
        rw [hf]
        simp only [List.any_cons, hth, Bool.true_and,
          (by simpa using hs : hasSignedThinkingPart (ensureThoughtSignature cache p) = false),
          Bool.false_or]
        exact ih
    · have hf : deepFilterPart cache p = some p := by
        unfold deepFilterPart
        rw [if_neg hth]
      rw [hf]
      have hth2 : isGeminiThinkingPart p = false := by simpa using hth
      simp only [List.any_cons, hth2, Bool.false_and, Bool.false_or,
        hasSignedThinkingPart_false_of_not_thinking p hth2]
      exact ih

theorem ensureThinkingContent_none_any (cache : String → Option String) (c : Content)
    (hall : (c.parts.all fun p => !isGeminiThinkingPart p || hasSignedThinkingPart p) = true) :
    ((ensureThinkingContent cache none c).parts.any isGeminiToolUsePart =
      c.parts.any isGeminiToolUsePart) ∧
    ((ensureThinkingContent cache none c).parts.any hasSignedThinkingPart =
      c.parts.any hasSignedThinkingPart) := by
  rw [List.all_eq_true] at hall
  have hensure : ∀ p ∈ c.parts.filter isGeminiThinkingPart,
      ensureThoughtSignature cache p = p := by
    intro p hp
    rw [List.mem_filter] at hp
    have hcheck := hall p hp.1
    rw [hp.2] at hcheck
    simp only [Bool.not_true, Bool.false_or] at hcheck
    exact ensureThoughtSignature_of_signed cache p hcheck
  have hmapid : (c.parts.filter isGeminiThinkingPart).map (ensureThoughtSignature cache) =
      c.parts.filter isGeminiThinkingPart := by
    rw [List.map_congr_left hensure]
    simp
  unfold ensureThinkingContent
  by_cases hrole : c.role ≠ "model" ∧ c.role ≠ "assistant"
  · rw [if_pos hrole]
    exact ⟨rfl, rfl⟩
  · rw [if_neg hrole]
    by_cases htool : (!c.parts.any isGeminiToolUsePart) = true
    · rw [if_pos htool]
      exact ⟨rfl, rfl⟩
    · rw [if_neg htool]
      rw [hmapid]
      by_cases hsigned : ((c.parts.filter isGeminiThinkingPart).any hasSignedThinkingPart) = true
      · rw [if_pos hsigned]
        constructor
        · show ((c.parts.filter isGeminiThinkingPart ++
              c.parts.filter fun p => !isGeminiThinkingPart p).any isGeminiToolUsePart) = _
          rw [List.any_append, any_partition]
        · show ((c.parts.filter isGeminiThinkingPart ++
              c.parts.filter fun p => !isGeminiThinkingPart p).any hasSignedThinkingPart) = _
          rw [List.any_append, any_partition]
      · rw [if_neg hsigned]
        exact ⟨rfl, rfl⟩

theorem deepFilter_toolUse (cache : String → Option String) (contents : List Content)
    (hwf : (contents.all fun c => c.parts.all fun p =>
      !(isGeminiThinkingPart p && isGeminiToolUsePart p)) = true) :
    hasToolUseInContents (deepFilterThinkingBlocks cache contents) =
      hasToolUseInContents contents := by
  rw [List.all_eq_true] at hwf
  unfold hasToolUseInContents deepFilterThinkingBlocks
  rw [List.any_map]
  refine any_congr_mem _ _ _ (fun c hc => ?_)
  have hwfc := hwf c hc
  rw [List.all_eq_true] at hwfc
  refine filterMap_any_toolUse cache c.parts (fun p hp => ?_)
  intro ⟨h1, h2⟩
  have := hwfc p hp
  rw [h1, h2] at this
  simp at this

theorem deepFilter_signed (cache : String → Option String) (contents : List Content) :
    hasSignedThinkingInContents (deepFilterThinkingBlocks cache contents) =
      hasRestorableSignedThinking cache contents := by
  unfold hasSignedThinkingInContents deepFilterThinkingBlocks hasRestorableSignedThinking
  rw [List.any_map]
  exact any_congr_mem _ _ _ (fun c _ => filterMap_any_signed cache c.parts)

theorem ensure_none_toolUse (cache : String → Option String) (contents1 : List Content)
    (hall : (contents1.all fun c =>
      c.parts.all fun p => !isGeminiThinkingPart p || hasSignedThinkingPart p) = true) :
    hasToolUseInContents (ensureThinkingBeforeToolUseInContents cache none contents1) =
      hasToolUseInContents contents1 := by
  rw [List.all_eq_true] at hall
  unfold hasToolUseInContents ensureThinkingBeforeToolUseInContents
  rw [List.any_map]
  exact any_congr_mem _ _ _
    (fun c hc => (ensureThinkingContent_none_any cache c (hall c hc)).1)

theorem ensure_none_signed (cache : String → Option String) (contents1 : List Content)
    (hall : (contents1.all fun c =>
      c.parts.all fun p => !isGeminiThinkingPart p || hasSignedThinkingPart p) = true) :
    hasSignedThinkingInContents (ensureThinkingBeforeToolUseInContents cache none contents1) =
      hasSignedThinkingInContents contents1 := by
  rw [List.all_eq_true] at hall
  unfold hasSignedThinkingInContents ensureThinkingBeforeToolUseInContents
  rw [List.any_map]
  exact any_congr_mem _ _ _
    (fun c hc => (ensureThinkingContent_none_any cache c (hall c hc)).2)

/-- **C10** The `needsSignedThinkingWarmup` flag is true exactly when the
effective model is a Claude thinking model, the conversation contains at
least one tool-use part, contains no thinking part signed (in the input or
after cache restore) with a signature of at least 50 characters, and no
last-signed-thinking entry is cached for the session key; for all other
models the flag is false.  (Requires the well-formedness invariant that no
part is simultaneously a thinking part and a tool-use part.) -/
theorem needsSignedThinkingWarmup_spec (model : String)
    (cache : String → Option String) (lastThinking : Option (String × String))
    (contents : List Content)
    (hwf : (contents.all fun c => c.parts.all fun p =>
      !(isGeminiThinkingPart p && isGeminiToolUsePart p)) = true) :
    needsSignedThinkingWarmup model cache lastThinking contents =
      (isClaudeThinkingModel model && hasToolUseInContents contents &&
        !hasRestorableSignedThinking cache contents && !lastThinking.isSome) := by
  by_cases ht : isClaudeThinkingModel model = true
  · have hclaude : isClaudeModel model = true := by
      have hh := ht
      unfold isClaudeThinkingModel at hh
      rw [Bool.and_eq_true] at hh
      exact hh.1
    cases hlt : lastThinking with
    | some ts =>
      unfold needsSignedThinkingWarmup
      rw [if_pos ht, ht]
      simp
    | none =>
      have hprep : prepareClaudeThinkingContents model cache none contents =
          ensureThinkingBeforeToolUseInContents cache none
            (deepFilterThinkingBlocks cache contents) := by
        unfold prepareClaudeThinkingContents
        rw [if_pos hclaude, if_pos ht]
      have hstep1 := deepFilter_all_signed cache contents
      unfold needsSignedThinkingWarmup
      rw [if_pos ht, ht]
      show (hasToolUseInContents (prepareClaudeThinkingContents model cache none contents) &&
          !hasSignedThinkingInContents (prepareClaudeThinkingContents model cache none contents) &&
          !(none : Option (String × String)).isSome) = _
      rw [hprep, ensure_none_toolUse cache _ hstep1, ensure_none_signed cache _ hstep1,
        deepFilter_toolUse cache contents hwf, deepFilter_signed cache contents]
      simp
  · unfold needsSignedThinkingWarmup
    rw [if_neg ht]
    have ht2 : isClaudeThinkingModel model = false := by simpa using ht
    rw [ht2]
    simp

/-- Witness for C10: a Claude thinking conversation with a tool call, an
unsigned unrestorable thinking part and no cached last thinking — the
warmup flag is set. -/
theorem needsSignedThinkingWarmup_spec_witness :
    needsSignedThinkingWarmup "claude-sonnet-4-5-thinking" (fun _ => none) none
        [ { role := "model",
            parts :=
              [ { thought := true, text := some "stripped later" },
                { functionCall := some { name := some "list_dir" } } ] } ] =
      (isClaudeThinkingModel "claude-sonnet-4-5-thinking" &&
        hasToolUseInContents
          [ { role := "model",
              parts :=
                [ { thought := true, text := some "stripped later" },
                  { functionCall := some { name := some "list_dir" } } ] } ] &&
        !hasRestorableSignedThinking (fun _ => none)
          [ { role := "model",
              parts :=
                [ { thought := true, text := some "stripped later" },
                  { functionCall := some { name := some "list_dir" } } ] } ] &&
        !(none : Option (String × String)).isSome) := by
  exact needsSignedThinkingWarmup_spec "claude-sonnet-4-5-thinking" (fun _ => none) none
    [ { role := "model",
        parts :=
          [ { thought := true, text := some "stripped later" },
            { functionCall := some { name := some "list_dir" } } ] } ]
    (by decide)

/-! ## Tool-id pairing passes (`prepareAntigravityRequest`, C5) -/

/-- Lookup in the `pendingCallIdsByName` map;
`pendingCallIdsByName.get(name) || []`. -/
def qGet : List (String × List String) → String → List String
  | [], _ => []
  | (k', v) :: rest, k => if k' = k then v else qGet rest k

/-- `pendingCallIdsByName.set(name, queue)`. -/
def qSet : List (String × List String) → String → List String → List (String × List String)
  | [], k, v => [(k, v)]
  | (k', v') :: rest, k, v =>
    if k' = k then (k, v) :: rest else (k', v') :: qSet rest k v

/-- State-passing `map` (the two passes mutate `toolCallCounter` and
`pendingCallIdsByName` while mapping over the conversation). -/
def mapAccumL (f : σ → α → σ × β) : σ → List α → σ × List β
  | s, [] => (s, [])
  | s, a :: as =>
    let fb := f s a
    let fr := mapAccumL f fb.1 as
    (fr.1, fb.2 :: fr.2)

/-- Pass 1 body: assign a synthetic id `tool-call-N` (`N` post-incremented
from the running counter) to a `functionCall` missing one, and push the
call's id (assigned or existing) onto the FIFO queue of its function name
(falling back to `tool-<counter>` when the call has no name). -/
def pass1Part (st : Nat × List (String × List String)) (p : Part) :
    (Nat × List (String × List String)) × Part :=
  match p.functionCall with
  | none => (st, p)
  | some call =>
    let counter := st.1
    let qmap := st.2
    let counter2 := match call.id with | some _ => counter | none => counter + 1
    let theId :=
      match call.id with
      | some i => i
      | none => "tool-call-" ++ toString (counter + 1)
    let nameKey :=
      match call.name with
      | some n => n
      | none => "tool-" ++ toString counter2
    let qmap2 := qSet qmap nameKey (qGet qmap nameKey ++ [theId])
    ((counter2, qmap2), { p with functionCall := some { call with id := some theId } })

/-- Pass 2 body: pop the front of the FIFO queue of the response's
function name for a `functionResponse` missing an id; leave the id absent
when that queue is empty. -/
def pass2Part (qmap : List (String × List String)) (p : Part) :
    List (String × List String) × Part :=
  match p.functionResponse with
  | none => (qmap, p)
  | some resp =>
    match resp.id with
    | some _ => (qmap, p)
    | none =>
      match resp.name with
      | none => (qmap, p)
      | some n =>
        match qGet qmap n with
        | [] => (qmap, p)
        | i :: restIds =>
          (qSet qmap n restIds,
            { p with functionResponse := some { resp with id := some i } })

/-- Pass 1 over one `contents[]` element. -/
def pass1Content (st : Nat × List (String × List String)) (c : Content) :
    (Nat × List (String × List String)) × Content :=
  let r := mapAccumL pass1Part st c.parts
  (r.1, { c with parts := r.2 })

/-- Pass 2 over one `contents[]` element. -/
def pass2Content (qmap : List (String × List String)) (c : Content) :
    List (String × List String) × Content :=
  let r := mapAccumL pass2Part qmap c.parts
  (r.1, { c with parts := r.2 })

/-- The two tool-id pairing passes of `prepareAntigravityRequest`: pass 1
over the whole conversation (counter starting at 0, empty queues), then
pass 2 with the queues pass 1 built. -/
def toolIdPairingPasses (contents : List Content) : List Content :=
  let r1 := mapAccumL pass1Content (0, []) contents
  (mapAccumL pass2Content r1.1.2 r1.2).2

/-- Pass 1 as the claim words it: the k-th `functionCall` lacking an id
(in conversation order) receives the synthetic id `tool-call-(n+k)`,
counting up from `n + 1`; calls with ids and other parts are unchanged. -/
def claimAssignCallIds (n : Nat) : List Part → List Part
  | [] => []
  | p :: ps =>
    match p.functionCall with
    | some call =>
      match call.id with
      | some _ => p :: claimAssignCallIds n ps
      | none =>
        let call2 : FunctionCall := { call with id := some ("tool-call-" ++ toString (n + 1)) }
        { p with functionCall := some call2 } :: claimAssignCallIds (n + 1) ps
    | none => p :: claimAssignCallIds n ps

/-- The FIFO queue of a function name after pass 1, as the claim words it:
the ids (assigned or existing) of that name's calls in conversation
order. -/
def claimQueue (name : String) (parts : List Part) : List String :=
  parts.filterMap fun p =>
    match p.functionCall with
    | some call => if call.name == some name then call.id else none
    | none => none

/-- Pass 2 as the claim words it: the j-th id-less `functionResponse` of a
function name receives element j of that name's queue — the front element
not yet popped — and stays id-less once the queue is exhausted. -/
def claimAssignRespIds (queueOf : String → List String) (consumed : String → Nat) :
    List Part → List Part
  | [] => []
  | p :: ps =>
    match p.functionResponse with
    | some resp =>
      match resp.id, resp.name with
      | none, some n =>
        let resp2 : FunctionResponse := { resp with id := (queueOf n)[consumed n]? }
        { p with functionResponse := some resp2 } ::
          claimAssignRespIds queueOf
            (fun m => if m = n then consumed n + 1 else consumed m) ps
      | _, _ => p :: claimAssignRespIds queueOf consumed ps
    | none => p :: claimAssignRespIds queueOf consumed ps

/-- Every `functionCall` and `functionResponse` in the parts carries a
function name. -/
def callsAndResponsesNamed (parts : List Part) : Bool :=
  parts.all fun p =>
    (match p.functionCall with | some call => call.name.isSome | none => true) &&
    (match p.functionResponse with | some resp => resp.name.isSome | none => true)

/-! ### Tool-id pairing lemmas -/

theorem qGet_qSet_self (m : List (String × List String)) (k : String) (v : List String) :
    qGet (qSet m k v) k = v := by
  induction m with
  | nil => simp [qSet, qGet]
  | cons kv rest ih =>
    obtain ⟨k', v'⟩ := kv
    by_cases h : k' = k <;> simp [qSet, qGet, h, ih]

theorem qGet_qSet_ne (m : List (String × List String)) (k k' : String) (v : List String)
    (h : k' ≠ k) : qGet (qSet m k v) k' = qGet m k' := by
  have hne : ¬k = k' := fun hh => h hh.symm
  induction m with
  | nil => simp [qSet, qGet, hne]
  | cons kv rest ih =>
    obtain ⟨k0, v0⟩ := kv
    by_cases h0 : k0 = k
    · subst h0
      simp [qSet, qGet, hne]
    · simp [qSet, qGet, h0, ih]

theorem mapAccumL_length (f : σ → α → σ × β) (l : List α) :
    ∀ s, (mapAccumL f s l).2.length = l.length := by
  induction l with
  | nil => intro s; rfl
  | cons a as ih => intro s; simp [mapAccumL, ih]

theorem mapAccumL_append (f : σ → α → σ × β) (xs : List α) :
    ∀ (s : σ) (ys : List α),
      mapAccumL f s (xs ++ ys) =
        ((mapAccumL f (mapAccumL f s xs).1 ys).1,
          (mapAccumL f s xs).2 ++ (mapAccumL f (mapAccumL f s xs).1 ys).2) := by
  induction xs with
  | nil => intro s ys; rfl
  | cons a as ih =>
    intro s ys
    simp only [List.cons_append, mapAccumL, List.append_eq]
    rw [ih]

theorem pass1_flatten (contents : List Content) :
    ∀ st, (mapAccumL pass1Content st contents).1 =
        (mapAccumL pass1Part st (contents.flatMap fun c => c.parts)).1 ∧
      ((mapAccumL pass1Content st contents).2.flatMap fun c => c.parts) =
        (mapAccumL pass1Part st (contents.flatMap fun c => c.parts)).2 := by
  induction contents with
  | nil => intro st; exact ⟨rfl, rfl⟩
  | cons c cs ih =>
    intro st
    rw [List.flatMap_cons, mapAccumL_append]
    constructor
    · show (mapAccumL pass1Content (pass1Content st c).1 cs).1 = _
      rw [(ih (pass1Content st c).1).1]
      rfl
    · show ((pass1Content st c).2 :: (mapAccumL pass1Content (pass1Content st c).1 cs).2).flatMap
          (fun c => c.parts) = _
      rw [List.flatMap_cons]
      show (mapAccumL pass1Part st c.parts).2 ++ _ = _
      rw [(ih (pass1Content st c).1).2]
      rfl

theorem pass2_flatten (contents : List Content) :
    ∀ qmap, (mapAccumL pass2Content qmap contents).1 =
        (mapAccumL pass2Part qmap (contents.flatMap fun c => c.parts)).1 ∧
      ((mapAccumL pass2Content qmap contents).2.flatMap fun c => c.parts) =
        (mapAccumL pass2Part qmap (contents.flatMap fun c => c.parts)).2 := by
  induction contents with
  | nil => intro qmap; exact ⟨rfl, rfl⟩
  | cons c cs ih =>
    intro qmap
    rw [List.flatMap_cons, mapAccumL_append]
    constructor
    · show (mapAccumL pass2Content (pass2Content qmap c).1 cs).1 = _
      rw [(ih (pass2Content qmap c).1).1]
      rfl
    · show ((pass2Content qmap c).2 :: (mapAccumL pass2Content (pass2Content qmap c).1 cs).2).flatMap
          (fun c => c.parts) = _
      rw [List.flatMap_cons]
      show (mapAccumL pass2Part qmap c.parts).2 ++ _ = _
      rw [(ih (pass2Content qmap c).1).2]
      rfl

theorem pass1_parts_eq_claim (parts : List Part) :
    ∀ (counter : Nat) (qmap : List (String × List String)),
      (mapAccumL pass1Part (counter, qmap) parts).2 = claimAssignCallIds counter parts := by
  induction parts with
  | nil => intro counter qmap; rfl
  | cons p ps ih =>
    intro counter qmap
    obtain ⟨th, ty, tx, tk, tsig, sg, fc, fres, tu⟩ := p
    cases fc with
    | none =>
      simp only [mapAccumL, pass1Part, claimAssignCallIds]
      exact congrArg _ (ih _ _)
    | some call =>
      obtain ⟨nm, ido⟩ := call
      cases ido with
      | some i =>
        simp only [mapAccumL, pass1Part, claimAssignCallIds]
        exact congrArg _ (ih _ _)
      | none =>
        simp only [mapAccumL, pass1Part, claimAssignCallIds]
        exact congrArg _ (ih _ _)

theorem pass1_qmap_spec (parts : List Part) :
    ∀ (counter : Nat) (qmap : List (String × List String)) (n : String),
      (parts.all fun p =>
        match p.functionCall with
        | some call => call.name.isSome
        | none => true) = true →
      qGet (mapAccumL pass1Part (counter, qmap) parts).1.2 n =
        qGet qmap n ++ claimQueue n (claimAssignCallIds counter parts) := by
  induction parts with
  | nil => intro counter qmap n _; simp [mapAccumL, claimAssignCallIds, claimQueue]
  | cons p ps ih =>
    intro counter qmap n hnamed
    rw [List.all_cons, Bool.and_eq_true] at hnamed
    obtain ⟨th, ty, tx, tk, tsig, sg, fc, fres, tu⟩ := p
    cases fc with
    | none =>
      simp only [mapAccumL, pass1Part, claimAssignCallIds, claimQueue, List.filterMap_cons]
      exact ih counter qmap n hnamed.2
    | some call =>
      obtain ⟨nm, ido⟩ := call
      cases nm with
      | none => simp at hnamed
      | some n0 =>
        cases ido with
        | some i =>
          simp only [mapAccumL, pass1Part, claimAssignCallIds, claimQueue,
            List.filterMap_cons]
          rw [ih counter (qSet qmap n0 (qGet qmap n0 ++ [i])) n hnamed.2]
          by_cases hn : n0 = n
          · subst hn
            rw [qGet_qSet_self]
            simp [claimQueue]
          · rw [qGet_qSet_ne qmap n0 n _ (fun hh => hn hh.symm)]
            simp [claimQueue, show ¬(n0 == n) = true by simpa using hn]
        | none =>
          simp only [mapAccumL, pass1Part, claimAssignCallIds, claimQueue,
            List.filterMap_cons]
          rw [ih (counter + 1)
            (qSet qmap n0 (qGet qmap n0 ++ ["tool-call-" ++ toString (counter + 1)])) n
            hnamed.2]
          by_cases hn : n0 = n
          · subst hn
            rw [qGet_qSet_self]
            simp [claimQueue]
          · rw [qGet_qSet_ne qmap n0 n _ (fun hh => hn hh.symm)]
            simp [claimQueue, show ¬(n0 == n) = true by simpa using hn]

theorem drop_succ_of_drop (l : List String) (k : Nat) :
    l.drop (k + 1) = (l.drop k).drop 1 := by
  rw [List.drop_drop]

theorem pass2_parts_eq_claim (parts : List Part) :
    ∀ (qmap : List (String × List String)) (queueOf : String → List String)
      (consumed : String → Nat),
      (∀ n, qGet qmap n = (queueOf n).drop (consumed n)) →
      (mapAccumL pass2Part qmap parts).2 = claimAssignRespIds queueOf consumed parts := by
  induction parts with
  | nil => intro qmap queueOf consumed _; rfl
  | cons p ps ih =>
    intro qmap queueOf consumed hinv
    obtain ⟨th, ty, tx, tk, tsig, sg, fc, fres, tu⟩ := p
    cases fres with
    | none =>
      simp only [mapAccumL, pass2Part, claimAssignRespIds]
      exact congrArg _ (ih qmap queueOf consumed hinv)
    | some resp =>
      obtain ⟨nm, ido⟩ := resp
      cases ido with
      | some i =>
        simp only [mapAccumL, pass2Part, claimAssignRespIds]
        exact congrArg _ (ih qmap queueOf consumed hinv)
      | none =>
        cases nm with
        | none =>
          simp only [mapAccumL, pass2Part, claimAssignRespIds]
          exact congrArg _ (ih qmap queueOf consumed hinv)
        | some n0 =>
          have hq := hinv n0
          cases hqq : qGet qmap n0 with
          | nil =>
            have hget : (queueOf n0)[consumed n0]? = none := by
              rw [← List.head?_drop, ← hq, hqq]
              rfl
            simp only [mapAccumL, pass2Part, claimAssignRespIds, hqq, hget]
            refine congrArg _ (ih qmap queueOf _ (fun m => ?_))
            dsimp only
            by_cases hm : m = n0
            · subst hm
              rw [if_pos rfl, hqq, drop_succ_of_drop, ← hq, hqq]
              rfl
            · rw [if_neg hm]
              exact hinv m
          | cons i restIds =>
            have hget : (queueOf n0)[consumed n0]? = some i := by
              rw [← List.head?_drop, ← hq, hqq]
              rfl
            simp only [mapAccumL, pass2Part, claimAssignRespIds, hqq, hget]
            refine congrArg _ (ih (qSet qmap n0 restIds) queueOf _ (fun m => ?_))
            dsimp only
            by_cases hm : m = n0
            · subst hm
              rw [if_pos rfl, qGet_qSet_self, drop_succ_of_drop, ← hq, hqq]
              rfl
            · rw [if_neg hm, qGet_qSet_ne qmap n0 m restIds hm]
              exact hinv m

theorem mapAccumL_content_roleLen (g : σ → Content → σ × Content)
    (h : ∀ (st : σ) (c : Content),
      ((g st c).2.role = c.role) ∧ ((g st c).2.parts.length = c.parts.length)) :
    ∀ (contents : List Content) (st : σ),
      (mapAccumL g st contents).2.map (fun c => (c.role, c.parts.length)) =
        contents.map (fun c => (c.role, c.parts.length)) := by
  intro contents
  induction contents with
  | nil => intro st; rfl
  | cons c cs ih =>
    intro st
    simp only [mapAccumL, List.map_cons]
    rw [(h st c).1, (h st c).2, ih]

theorem all_flatMap (contents : List Content) (pr : Part → Bool)
    (h : (contents.all fun c => c.parts.all pr) = true) :
    ((contents.flatMap fun c => c.parts).all pr) = true := by
  rw [List.all_eq_true] at h ⊢
  intro p hp
  rw [List.mem_flatMap] at hp
  obtain ⟨c, hc, hpc⟩ := hp
  have hcall := h c hc
  rw [List.all_eq_true] at hcall
  exact hcall p hpc

theorem all_imp (l : List α) (f g : α → Bool) (h : ∀ a, f a = true → g a = true)
    (hf : l.all f = true) : l.all g = true := by
  rw [List.all_eq_true] at hf ⊢
  exact fun a ha => h a (hf a ha)

/-- **C5** The two tool-id pairing passes of `prepareAntigravityRequest`
behave as claimed: pass 1 assigns to every `functionCall` lacking an id a
synthetic id `tool-call-N` with `N` counting up from 1 across the whole
conversation, pushing each assigned or existing id onto a FIFO queue
keyed by that call's function name; pass 2 assigns to every
`functionResponse` lacking an id the front element popped from the queue
of its own function name, leaving the response id absent when that queue
is empty.  Formally, on a conversation whose calls and responses carry
function names, the composite of the two passes preserves the structure
(roles and per-content part counts) and, on the flattened part list,
equals the claim's declarative description (positional id assignment
followed by queue-indexed FIFO response pairing). -/
theorem toolIdPairingPasses_spec (contents : List Content)
    (hnamed : (contents.all fun c => callsAndResponsesNamed c.parts) = true) :
    ((toolIdPairingPasses contents).map fun c => (c.role, c.parts.length)) =
      (contents.map fun c => (c.role, c.parts.length)) ∧
    ((toolIdPairingPasses contents).flatMap fun c => c.parts) =
      claimAssignRespIds
        (fun n => claimQueue n (claimAssignCallIds 0 (contents.flatMap fun c => c.parts)))
        (fun _ => 0)
        (claimAssignCallIds 0 (contents.flatMap fun c => c.parts)) := by
  constructor
  · have h1 : ∀ (st : Nat × List (String × List String)) (c : Content),
        ((pass1Content st c).2.role = c.role) ∧
          ((pass1Content st c).2.parts.length = c.parts.length) :=
      fun st c => ⟨rfl, mapAccumL_length pass1Part c.parts st⟩
    have h2 : ∀ (qmap : List (String × List String)) (c : Content),
        ((pass2Content qmap c).2.role = c.role) ∧
          ((pass2Content qmap c).2.parts.length = c.parts.length) :=
      fun qmap c => ⟨rfl, mapAccumL_length pass2Part c.parts qmap⟩
    unfold toolIdPairingPasses
    rw [mapAccumL_content_roleLen pass2Content h2, mapAccumL_content_roleLen pass1Content h1]
  · have hconj : ((contents.flatMap fun c => c.parts).all fun p =>
        (match p.functionCall with | some call => call.name.isSome | none => true) &&
        (match p.functionResponse with | some resp => resp.name.isSome | none => true)) = true := by
      apply all_flatMap
      simpa [callsAndResponsesNamed] using hnamed
    have hcallnamed : ((contents.flatMap fun c => c.parts).all fun p =>
        match p.functionCall with | some call => call.name.isSome | none => true) = true := by
      refine all_imp _ _ _ (fun p hp => ?_) hconj
      rw [Bool.and_eq_true] at hp
      exact hp.1
    unfold toolIdPairingPasses
    rw [(pass2_flatten (mapAccumL pass1Content (0, []) contents).2
        (mapAccumL pass1Content (0, []) contents).1.2).2]
    rw [(pass1_flatten contents (0, [])).2]
    rw [(pass1_flatten contents (0, [])).1]
    rw [pass1_parts_eq_claim]
    apply pass2_parts_eq_claim
    intro n
    rw [pass1_qmap_spec _ 0 [] n hcallnamed]
    simp [qGet]

/-- The concrete orphan-recovery conversation from the spec's scenario 5:
two `read_file` calls (one with id `a`, one id-less) and three id-less
responses. -/
def pairingConversation : List Content :=
  [ { role := "model",
      parts :=
        [ { functionCall := some { name := some "read_file", id := some "a" } },
          { functionCall := some { name := some "read_file" } } ] },
    { role := "user",
      parts :=
        [ { functionResponse := some { name := some "read_file" } },
          { functionResponse := some { name := some "read_file" } },
          { functionResponse := some { name := some "read_file" } } ] } ]

/-- Witness for C5 at the concrete conversation. -/
theorem toolIdPairingPasses_spec_witness :
    (((toolIdPairingPasses pairingConversation).map fun c => (c.role, c.parts.length)) =
      (pairingConversation.map fun c => (c.role, c.parts.length))) ∧
    ((toolIdPairingPasses pairingConversation).flatMap fun c => c.parts) =
      claimAssignRespIds
        (fun n => claimQueue n
          (claimAssignCallIds 0 (pairingConversation.flatMap fun c => c.parts)))
        (fun _ => 0)
        (claimAssignCallIds 0 (pairingConversation.flatMap fun c => c.parts)) :=
  toolIdPairingPasses_spec pairingConversation (by decide)

/-! ## Thinking configuration step (`prepareAntigravityRequest`,
`transform/claude.js`, C4) -/

/-- The emitted `generationConfig.thinkingConfig`, with constructors named
for the JSON key casing the code emits: `claudeSnake` is an object with
the snake_case keys `include_thoughts` / `thinking_budget`, `geminiLevel`
one with camelCase `includeThoughts` / `thinkingLevel`, and `geminiBudget`
one with camelCase `includeThoughts` / `thinkingBudget`. -/
inductive ThinkingConfigOut
  | claudeSnake (include_thoughts : Bool) (thinking_budget : Option Nat)
  | geminiLevel (includeThoughts : Option Bool) (thinkingLevel : String)
  | geminiBudget (includeThoughts : Option Bool) (thinkingBudget : Option Nat)
deriving DecidableEq, Repr

/-- `CLAUDE_THINKING_MAX_OUTPUT_TOKENS` (`transform/claude.js`). -/
def CLAUDE_THINKING_MAX_OUTPUT_TOKENS : Nat := 64000

/-- `generationConfig`, restricted to the fields the thinking step
touches. -/
structure GenerationConfig where
  maxOutputTokens : Option Nat := none
  max_output_tokens : Option Nat := none
  thinkingConfig : Option ThinkingConfigOut := none
deriving DecidableEq, Repr

/-- The effective maximum-output value the code checks
(`generationConfig.maxOutputTokens ?? generationConfig.max_output_tokens`). -/
def GenerationConfig.effectiveMaxOutputTokens (gc : GenerationConfig) : Option Nat :=
  match gc.maxOutputTokens with
  | some m => some m
  | none => gc.max_output_tokens

/-- `ensureClaudeMaxOutputTokens` (`transform/claude.js`): when the
current maximum (`maxOutputTokens` or `max_output_tokens`) is missing,
zero (JavaScript falsy), or does not exceed the thinking budget, force it
to 64000 and drop the snake_case variant; otherwise leave it unchanged. -/
def ensureClaudeMaxOutputTokens (gc : GenerationConfig) (thinkingBudget : Nat) :
    GenerationConfig :=
  let currentMax :=
    match gc.maxOutputTokens with
    | some m => some m
    | none => gc.max_output_tokens
  match currentMax with
  | none =>
    { gc with
        maxOutputTokens := some CLAUDE_THINKING_MAX_OUTPUT_TOKENS
        max_output_tokens := none }
  | some m =>
    if m = 0 ∨ m ≤ thinkingBudget then
      { gc with
          maxOutputTokens := some CLAUDE_THINKING_MAX_OUTPUT_TOKENS
          max_output_tokens := none }
    else gc

/-- Output of `normalizeThinkingConfig`: the user-level thinking options
feeding the step (thinking enabled iff this is present). -/
structure NormalizedThinking where
  includeThoughts : Option Bool := none
  thinkingBudget : Option Nat := none
deriving DecidableEq, Repr

/-- The thinking-configuration step of `prepareAntigravityRequest`
(unwrapped payload branch), parametrized by the resolver's tier output and
the already-normalized user thinking config (`normalizeThinkingConfig`
lives in `request-helpers.js`, outside the snapshot; the step runs only
when it yields a config).  Returns the updated `generationConfig` (`none`
when the payload had none and no thinking config is emitted). -/
def applyThinkingStep (isClaudeThinking : Bool) (tierThinkingBudget : Option Nat)
    (tierThinkingLevel : Option String) (normalizedThinking : Option NormalizedThinking)
    (rawGenerationConfig : Option GenerationConfig) : Option GenerationConfig :=
  match normalizedThinking with
  | some nt =>
    let thinkingBudget :=
      match tierThinkingBudget with
      | some b => some b
      | none => nt.thinkingBudget
    let thinkingConfig : ThinkingConfigOut :=
      if isClaudeThinking then
        .claudeSnake (match nt.includeThoughts with | some x => x | none => true)
          (match thinkingBudget with
           | some b => if 0 < b then some b else none
           | none => none)
      else
        match tierThinkingLevel with
        | some lvl => .geminiLevel nt.includeThoughts lvl
        | none =>
          .geminiBudget nt.includeThoughts
            (match thinkingBudget with
             | some b => if 0 < b then some b else none
             | none => none)
    match rawGenerationConfig with
    | some gc =>
      let gc2 := { gc with thinkingConfig := some thinkingConfig }
      some (if isClaudeThinking then
        match thinkingBudget with
        | some b => if 0 < b then ensureClaudeMaxOutputTokens gc2 b else gc2
        | none => gc2
      else gc2)
    | none =>
      some (if isClaudeThinking then
        match thinkingBudget with
        | some b =>
          if 0 < b then
            { thinkingConfig := some thinkingConfig
              maxOutputTokens := some CLAUDE_THINKING_MAX_OUTPUT_TOKENS }
          else { thinkingConfig := some thinkingConfig }
        | none => { thinkingConfig := some thinkingConfig }
      else { thinkingConfig := some thinkingConfig })
  | none =>
    match rawGenerationConfig with
    | some gc => some { gc with thinkingConfig := none }
    | none => none

/-- `l2.isSuffixOf l1` on character data (`String.endsWith`). -/
def strEndsWith (s pat : String) : Bool :=
  pat.data.isSuffixOf s.data

/-- `String.dropRight` on character data. -/
def strDropRight (s : String) (n : Nat) : String :=
  String.mk (s.data.take (s.data.length - n))

/-- A resolved model (`ResolvedModel`). -/
structure ResolvedModel where
  actualModel : String
  thinkingBudget : Option Nat := none
  thinkingLevel : Option String := none
  isThinkingModel : Bool := false
deriving DecidableEq, Repr

/-- Modelled from the spec: `model-resolver.js` is not in the repository
snapshot — only its declaration file is.  Per §4.G of the spec: recognize
a `-low|-medium|-high` suffix and strip it, selecting a thinking budget
from the family table (claude: 8192/16384/32768; gemini-2.5-pro the same;
gemini-2.5-flash: 6144/12288/24576; default: 4096/8192/16384) and, for
gemini-3 models, a thinking-level string instead of a budget;
`isThinkingModel` is true iff the name contains `thinking`, `gemini-3` or
`opus`. -/
def resolveModelWithTier (requestedModel : String) : ResolvedModel :=
  let isThinking := fun (m : String) =>
    strIncludes m "thinking" || strIncludes m "gemini-3" || strIncludes m "opus"
  let tier : Option String :=
    if strEndsWith requestedModel "-low" then some "low"
    else if strEndsWith requestedModel "-medium" then some "medium"
    else if strEndsWith requestedModel "-high" then some "high"
    else none
  match tier with
  | none => { actualModel := requestedModel, isThinkingModel := isThinking requestedModel }
  | some t =>
    let base := strDropRight requestedModel (t.data.length + 1)
    if strIncludes base "gemini-3" then
      { actualModel := base, thinkingLevel := some t, isThinkingModel := true }
    else
      let budgets : Nat × Nat × Nat :=
        if strIncludes base "claude" then (8192, 16384, 32768)
        else if strIncludes base "gemini-2.5-pro" then (8192, 16384, 32768)
        else if strIncludes base "gemini-2.5-flash" then (6144, 12288, 24576)
        else (4096, 8192, 16384)
      let budget :=
        if t = "low" then budgets.1
        else if t = "medium" then budgets.2.1
        else budgets.2.2
      { actualModel := base, thinkingBudget := some budget,
        isThinkingModel := isThinking base }

/-- **C4 counterexample** A Claude thinking request with tier budget 16384
whose caller already set `maxOutputTokens` to 20000 keeps 20000: the code
forces 64000 only when the current maximum is absent or does not exceed
the budget, so the prepared `maxOutputTokens` is *not* always at least
64000. -/
theorem claudeThinking_maxOutputTokens_claim_false :
    (resolveModelWithTier "claude-sonnet-4-5-thinking-medium").thinkingBudget = some 16384 ∧
      ((applyThinkingStep true (some 16384) none (some {})
          (some { maxOutputTokens := some 20000 })).bind
        (fun gc => gc.maxOutputTokens)) = some 20000 ∧
      ¬(64000 ≤ 20000) := by
  refine ⟨by decide, by decide, by decide⟩

/-- **C4 (amended)** For every Claude thinking-model request with thinking
enabled and a positive tier thinking budget `b` (e.g. resolving
`claude-sonnet-4-5-thinking-medium` gives `thinking_budget` 16384), the
prepared `generationConfig.thinkingConfig` uses the snake_case keys
`include_thoughts` and `thinking_budget`; `maxOutputTokens` is forced to
64000 exactly when the incoming maximum is absent, zero, or at most `b` —
a caller-supplied maximum above the budget is preserved — so (for
`b < 64000`) the result always exceeds the thinking budget but is not
necessarily at least 64000. -/
theorem ensureClaudeMaxOutputTokens_spec (mo mo2 : Option Nat)
    (tc : Option ThinkingConfigOut) (b : Nat) :
    (ensureClaudeMaxOutputTokens ⟨mo, mo2, tc⟩ b).thinkingConfig = tc ∧
      (ensureClaudeMaxOutputTokens ⟨mo, mo2, tc⟩ b).effectiveMaxOutputTokens =
        (match (GenerationConfig.effectiveMaxOutputTokens ⟨mo, mo2, tc⟩) with
         | none => some 64000
         | some m => if m = 0 ∨ m ≤ b then some 64000 else some m) := by
  unfold ensureClaudeMaxOutputTokens GenerationConfig.effectiveMaxOutputTokens
  cases mo with
  | some m =>
    dsimp only
    by_cases hm : m = 0 ∨ m ≤ b
    · rw [if_pos hm, if_pos hm]; exact ⟨rfl, rfl⟩
    · rw [if_neg hm, if_neg hm]; exact ⟨rfl, rfl⟩
  | none =>
    cases mo2 with
    | none => exact ⟨rfl, rfl⟩
    | some m =>
      dsimp only
      by_cases hm : m = 0 ∨ m ≤ b
      · rw [if_pos hm, if_pos hm]; exact ⟨rfl, rfl⟩
      · rw [if_neg hm, if_neg hm]; exact ⟨rfl, rfl⟩

/-- **C4 (amended)** For every Claude thinking-model request with thinking
enabled and a positive tier thinking budget `b` (e.g. resolving
`claude-sonnet-4-5-thinking-medium` gives `thinking_budget` 16384), the
prepared `generationConfig.thinkingConfig` uses the snake_case keys
`include_thoughts` and `thinking_budget`; the effective `maxOutputTokens`
is forced to 64000 exactly when the incoming maximum is absent, zero, or
at most `b` — a caller-supplied maximum above the budget is preserved —
so (for `b < 64000`) the result always exceeds the thinking budget but is
not necessarily at least 64000. -/
theorem claudeThinking_config_spec (b : Nat) (nt : NormalizedThinking)
    (gc : GenerationConfig) (hb : 0 < b) (hb64 : b < 64000) :
    (resolveModelWithTier "claude-sonnet-4-5-thinking-medium").thinkingBudget = some 16384 ∧
      ((applyThinkingStep true (some b) none (some nt) (some gc)).bind
          (fun g => g.thinkingConfig) =
        some (ThinkingConfigOut.claudeSnake
          (match nt.includeThoughts with | some x => x | none => true) (some b))) ∧
      ((applyThinkingStep true (some b) none (some nt) (some gc)).bind
          (fun g => g.effectiveMaxOutputTokens) =
        (match gc.effectiveMaxOutputTokens with
         | none => some 64000
         | some m => if m = 0 ∨ m ≤ b then some 64000 else some m)) ∧
      (∀ m, (applyThinkingStep true (some b) none (some nt) (some gc)).bind
          (fun g => g.effectiveMaxOutputTokens) = some m → b < m) := by
  have happly : applyThinkingStep true (some b) none (some nt) (some gc) =
      some (ensureClaudeMaxOutputTokens
        ⟨gc.maxOutputTokens, gc.max_output_tokens,
          some (ThinkingConfigOut.claudeSnake
            (match nt.includeThoughts with | some x => x | none => true) (some b))⟩ b) := by
    unfold applyThinkingStep
    simp only [if_pos hb, if_true]
  have hspec := ensureClaudeMaxOutputTokens_spec gc.maxOutputTokens gc.max_output_tokens
    (some (ThinkingConfigOut.claudeSnake
      (match nt.includeThoughts with | some x => x | none => true) (some b))) b
  have heff : GenerationConfig.effectiveMaxOutputTokens
      ⟨gc.maxOutputTokens, gc.max_output_tokens,
        some (ThinkingConfigOut.claudeSnake
          (match nt.includeThoughts with | some x => x | none => true) (some b))⟩ =
      gc.effectiveMaxOutputTokens := rfl
  refine ⟨by decide, ?_, ?_, ?_⟩
  · rw [happly, Option.some_bind]
    exact hspec.1
  · rw [happly, Option.some_bind]
    rw [hspec.2, heff]
  · intro m hm
    rw [happly, Option.some_bind] at hm
    rw [hspec.2, heff] at hm
    cases heq : gc.effectiveMaxOutputTokens with
    | none =>
      rw [heq] at hm
      cases hm
      omega
    | some m0 =>
      rw [heq] at hm
      dsimp only at hm
      by_cases hm0 : m0 = 0 ∨ m0 ≤ b
      · rw [if_pos hm0] at hm
        cases hm
        omega
      · rw [if_neg hm0] at hm
        cases hm
        omega

/-- Witness for the amended C4 theorem at the medium tier with an empty
incoming `generationConfig`: snake_case keys and the forced 64000. -/
theorem claudeThinking_config_spec_witness :
    ((applyThinkingStep true (some 16384) none (some {}) (some {})).bind
        (fun g => g.thinkingConfig) =
      some (ThinkingConfigOut.claudeSnake true (some 16384))) ∧
      ((applyThinkingStep true (some 16384) none (some {}) (some {})).bind
          (fun g => g.effectiveMaxOutputTokens) = some 64000) := by
  have h := claudeThinking_config_spec 16384 {} {} (by decide) (by decide)
  exact ⟨h.2.1, h.2.2.1⟩

/-! ## Signature session key (`buildSignatureSessionKey`,
`resolveConversationKey`, C8) -/

/-- `String.trim` on character data: strip leading and trailing
whitespace. -/
def strTrim (s : String) : String :=
  String.mk (((s.data.dropWhile Char.isWhitespace).reverse.dropWhile
    Char.isWhitespace).reverse)

/-- `String.toLowerCase`. -/
def strToLower (s : String) : String :=
  String.mk (lowerChars s)

/-- The request-payload fields `resolveConversationKey` reads: the twelve
client-supplied id candidates (top level and `metadata.*`, the latter
prefixed `meta` here), the `systemInstruction.parts`, and the Gemini-wire
`contents[]`.  (The Anthropic-style `messages[]` seed branch is analogous
and omitted; `systemInstruction` given as a bare string is modelled as a
one-part list.) -/
structure ConversationPayload where
  conversationId : Option String := none
  conversation_id : Option String := none
  thread_id : Option String := none
  threadId : Option String := none
  chat_id : Option String := none
  chatId : Option String := none
  sessionId : Option String := none
  session_id : Option String := none
  metaConversation_id : Option String := none
  metaConversationId : Option String := none
  metaThread_id : Option String := none
  metaThreadId : Option String := none
  systemInstructionParts : Option (List Part) := none
  contents : Option (List Content) := none
deriving DecidableEq, Repr

/-- `extractTextFromContent`: the first part carrying a string `text`. -/
def extractTextFromContent : List Part → String
  | [] => ""
  | p :: rest =>
    match p.text with
    | some t => t
    | none => extractTextFromContent rest

/-- `extractConversationSeedFromContents`: the first user content's text,
falling back to the last user content's text. -/
def extractConversationSeedFromContents (contents : List Content) : String :=
  let users := contents.filter (fun c => c.role == "user")
  match users with
  | [] => ""
  | firstUser :: _ =>
    let primaryUser := extractTextFromContent firstUser.parts
    if primaryUser ≠ "" then primaryUser
    else
      match users.getLast? with
      | some lastUser => extractTextFromContent lastUser.parts
      | none => ""

/-- The candidate list of `resolveConversationKey`, in source order. -/
def conversationKeyCandidates (p : ConversationPayload) : List (Option String) :=
  [p.conversationId, p.conversation_id, p.thread_id, p.threadId,
    p.chat_id, p.chatId, p.sessionId, p.session_id,
    p.metaConversation_id, p.metaConversationId, p.metaThread_id, p.metaThreadId]

/-- A candidate is used when it is a string that is nonempty after
trimming; the trimmed value is returned. -/
def usableCandidate : Option String → Option String
  | some c => if strTrim c = "" then none else some (strTrim c)
  | none => none

/-- `hashConversationSeed(seed)`: the first 16 characters of the SHA-256
hex digest, the digest function abstracted as a parameter (Node `crypto`
is external to the repository). -/
def hashConversationSeed (sha256hex : String → String) (seed : String) : String :=
  String.mk ((sha256hex seed).data.take 16)

/-- `"|"`-join of the nonempty seed components (`[a, b].filter(Boolean).join("|")`). -/
def joinSeedParts : List String → String
  | [] => ""
  | [s] => s
  | s :: rest => s ++ "|" ++ joinSeedParts rest

/-- `resolveConversationKey(requestPayload)`: the first usable
client-supplied id; else `seed-` followed by the 16-hex hash of
`system-text | first-user-text`; else `undefined`. -/
def resolveConversationKey (sha256hex : String → String) (p : ConversationPayload) :
    Option String :=
  match (conversationKeyCandidates p).findSome? usableCandidate with
  | some k => some k
  | none =>
    let systemSeed := extractTextFromContent (p.systemInstructionParts.getD [])
    let messageSeed :=
      match p.contents with
      | some contents => extractConversationSeedFromContents contents
      | none => ""
    let seed := joinSeedParts (([systemSeed, messageSeed]).filter (fun s => s ≠ ""))
    if seed = "" then none
    else some ("seed-" ++ hashConversationSeed sha256hex seed)

/-- `buildSignatureSessionKey(sessionId, model, conversationKey,
projectKey)`. -/
def buildSignatureSessionKey (sessionId model : String)
    (conversationKey projectKey : Option String) : String :=
  let modelKey := if strTrim model ≠ "" then strToLower model else "unknown"
  let projectPart :=
    match projectKey with
    | some pk => if strTrim pk ≠ "" then strTrim pk else "default"
    | none => "default"
  let conversationPart :=
    match conversationKey with
    | some ck => if strTrim ck ≠ "" then strTrim ck else "default"
    | none => "default"
  sessionId ++ ":" ++ modelKey ++ ":" ++ projectPart ++ ":" ++ conversationPart

/-- The conversation key exactly as the claim words it: the first present
client-supplied id field; otherwise a 16-hex-character SHA-256 prefix of
`system-instruction-text | first-user-text` (with no marker prefix);
otherwise nothing (the literal `default` being supplied downstream). -/
def claimConversationKey (sha256hex : String → String) (p : ConversationPayload) :
    Option String :=
  match (conversationKeyCandidates p).findSome? usableCandidate with
  | some k => some k
  | none =>
    let systemSeed := extractTextFromContent (p.systemInstructionParts.getD [])
    let messageSeed :=
      match p.contents with
      | some contents => extractConversationSeedFromContents contents
      | none => ""
    let seed := joinSeedParts (([systemSeed, messageSeed]).filter (fun s => s ≠ ""))
    if seed = "" then none
    else some (hashConversationSeed sha256hex seed)

/-- The conversation key as amended: the code prefixes the hash fallback
with the literal `seed-`. -/
def amendedConversationKey (sha256hex : String → String) (p : ConversationPayload) :
    Option String :=
  match (conversationKeyCandidates p).findSome? usableCandidate with
  | some k => some k
  | none =>
    let systemSeed := extractTextFromContent (p.systemInstructionParts.getD [])
    let messageSeed :=
      match p.contents with
      | some contents => extractConversationSeedFromContents contents
      | none => ""
    let seed := joinSeedParts (([systemSeed, messageSeed]).filter (fun s => s ≠ ""))
    if seed = "" then none
    else some ("seed-" ++ hashConversationSeed sha256hex seed)

/-- A payload with no client-supplied id and a single user text `hi`. -/
def seedOnlyPayload : ConversationPayload :=
  { contents := some [ { role := "user", parts := [ { text := some "hi" } ] } ] }

/-- A constant stand-in for the SHA-256 hex digest. -/
def constHexDigest : String → String :=
  fun _ => "aaaaaaaaaaaaaaaaaaaaaaaaaaaaaaaaaaaaaaaaaaaaaaaaaaaaaaaaaaaaaaaa"

/-- **C8 counterexample** On a payload with no client-supplied id, the
code's conversation key is `seed-` followed by the 16-hex prefix (21
characters), not the bare 16-hex prefix the claim describes. -/
theorem conversationKey_claim_false :
    resolveConversationKey constHexDigest seedOnlyPayload = some "seed-aaaaaaaaaaaaaaaa" ∧
      claimConversationKey constHexDigest seedOnlyPayload = some "aaaaaaaaaaaaaaaa" ∧
      resolveConversationKey constHexDigest seedOnlyPayload ≠
        claimConversationKey constHexDigest seedOnlyPayload := by
  refine ⟨by decide, by decide, by decide⟩

/-- The head of a `dropWhile` result never satisfies the predicate. -/
theorem head_after_dropWhile {α : Type} (p : α → Bool) :
    ∀ (l : List α) (a : α), (l.dropWhile p).head? = some a → p a = false := by
  intro l
  induction l with
  | nil => intro a h; simp at h
  | cons b t ih =>
    intro a h
    by_cases hb : p b
    · rw [List.dropWhile_cons_of_pos hb] at h
      exact ih a h
    · rw [List.dropWhile_cons_of_neg hb] at h
      simp at h
      rw [← h]
      exact Bool.eq_false_iff.mpr hb

/-- `dropWhile` is idempotent. -/
theorem dropWhile_idem {α : Type} (p : α → Bool) (l : List α) :
    (l.dropWhile p).dropWhile p = l.dropWhile p := by
  cases h : l.dropWhile p with
  | nil => rfl
  | cons a t =>
    have ha : p a = false := head_after_dropWhile p l a (by rw [h]; rfl)
    rw [List.dropWhile_cons_of_neg (by simp [ha])]

/-- A list whose head fails the predicate is fixed by `dropWhile`. -/
theorem dropWhile_eq_self_of_head {α : Type} (p : α → Bool) (l : List α)
    (h : ∀ a, l.head? = some a → p a = false) : l.dropWhile p = l := by
  cases l with
  | nil => rfl
  | cons a t =>
    have := h a rfl
    rw [List.dropWhile_cons_of_neg (by simp [this])]

/-- A list with no element satisfying the predicate is fixed by
`dropWhile`. -/
theorem dropWhile_eq_self_of_forall {α : Type} (p : α → Bool) (l : List α)
    (h : ∀ a ∈ l, p a = false) : l.dropWhile p = l := by
  cases l with
  | nil => rfl
  | cons a t =>
    have := h a (List.mem_cons_self a t)
    rw [List.dropWhile_cons_of_neg (by simp [this])]

/-- A nonempty `dropWhile` result keeps the last element of the input. -/
theorem getLast_after_dropWhile {α : Type} (p : α → Bool) :
    ∀ (l : List α), l.dropWhile p ≠ [] → (l.dropWhile p).getLast? = l.getLast? := by
  intro l
  induction l with
  | nil => intro h; exact absurd rfl h
  | cons a t ih =>
    intro h
    by_cases ha : p a
    · rw [List.dropWhile_cons_of_pos ha] at h ⊢
      cases t with
      | nil => exact absurd rfl h
      | cons b t' =>
        rw [ih h, List.getLast?_cons_cons]
    · rw [List.dropWhile_cons_of_neg ha]

/-- Trimming is idempotent. -/
theorem strTrim_strTrim (s : String) : strTrim (strTrim s) = strTrim s := by
  unfold strTrim
  have h1 : ((((s.data.dropWhile Char.isWhitespace).reverse.dropWhile
      Char.isWhitespace).reverse).dropWhile Char.isWhitespace) =
      ((s.data.dropWhile Char.isWhitespace).reverse.dropWhile Char.isWhitespace).reverse := by
    apply dropWhile_eq_self_of_head
    intro a ha
    rw [List.head?_reverse] at ha
    have hne : (s.data.dropWhile Char.isWhitespace).reverse.dropWhile Char.isWhitespace ≠ [] := by
      intro hcon
      rw [hcon] at ha
      simp at ha
    rw [getLast_after_dropWhile Char.isWhitespace _ hne, List.getLast?_reverse] at ha
    exact head_after_dropWhile Char.isWhitespace _ a ha
  rw [h1, List.reverse_reverse, dropWhile_idem]

/-- A whitespace-free string is fixed by trimming. -/
theorem strTrim_eq_self (s : String)
    (h : ∀ c ∈ s.data, c.isWhitespace = false) : strTrim s = s := by
  unfold strTrim
  rw [dropWhile_eq_self_of_forall Char.isWhitespace s.data h,
    dropWhile_eq_self_of_forall Char.isWhitespace s.data.reverse
      (fun c hc => h c (List.mem_reverse.mp hc)),
    List.reverse_reverse]

/-- A usable candidate is a trim fixed point and nonempty. -/
theorem usableCandidate_trimmed (o : Option String) (k : String)
    (h : usableCandidate o = some k) : strTrim k = k ∧ k ≠ "" := by
  cases o with
  | none => simp [usableCandidate] at h
  | some c =>
    dsimp only [usableCandidate] at h
    by_cases hc : strTrim c = ""
    · rw [if_pos hc] at h; exact absurd h (by simp)
    · rw [if_neg hc] at h
      have hk : k = strTrim c := by
        have := Option.some.inj h
        exact this.symm
      subst hk
      exact ⟨strTrim_strTrim c, hc⟩

/-- Every conversation key the resolver returns is a trim fixed point and
nonempty (candidates are trimmed; the `seed-` fallback is whitespace-free). -/
theorem resolveConversationKey_trimmed (sha256hex : String → String)
    (p : ConversationPayload) (k : String)
    (hsha : ∀ s, ∀ c ∈ (sha256hex s).data, c.isWhitespace = false)
    (h : resolveConversationKey sha256hex p = some k) : strTrim k = k ∧ k ≠ "" := by
  unfold resolveConversationKey at h
  cases hf : (conversationKeyCandidates p).findSome? usableCandidate with
  | some k0 =>
    rw [hf] at h
    have hk : k0 = k := Option.some.inj h
    subst hk
    obtain ⟨o, _, ho⟩ := List.exists_of_findSome?_eq_some hf
    exact usableCandidate_trimmed o k0 ho
  | none =>
    rw [hf] at h
    simp only at h
    by_cases hseed : joinSeedParts (([extractTextFromContent (p.systemInstructionParts.getD []),
        match p.contents with
        | some contents => extractConversationSeedFromContents contents
        | none => ""]).filter (fun s => s ≠ "")) = ""
    · rw [if_pos hseed] at h
      exact absurd h (by simp)
    · rw [if_neg hseed] at h
      have hk : k = "seed-" ++ hashConversationSeed sha256hex
          (joinSeedParts (([extractTextFromContent (p.systemInstructionParts.getD []),
            match p.contents with
            | some contents => extractConversationSeedFromContents contents
            | none => ""]).filter (fun s => s ≠ ""))) :=
        (Option.some.inj h).symm
      constructor
      · rw [hk]
        apply strTrim_eq_self
        intro c hc
        rw [String.data_append] at hc
        rcases List.mem_append.mp hc with hc1 | hc2
        · have hws : ∀ d ∈ ("seed-" : String).data, d.isWhitespace = false := by decide
          exact hws c hc1
        · unfold hashConversationSeed at hc2
          exact hsha _ c (List.mem_of_mem_take hc2)
      · rw [hk]
        intro hcon
        have := congrArg String.data hcon
        rw [String.data_append] at this
        simp at this

/-- **C8 (amended)** The session key is
`sessionId:lowercased(model):projectKey:conversationKey`, where the
conversation key is the first client-supplied id field nonempty after
trimming (trimmed); otherwise the literal `seed-` followed by the
16-hex-character SHA-256 prefix of `system-instruction-text | first-user-text`;
otherwise the literal `default`.  Stated for a nonempty model, an
already-trimmed nonempty project key, and a whitespace-free digest
function. -/
theorem buildSignatureSessionKey_spec (sha256hex : String → String)
    (p : ConversationPayload) (sessionId model projectKey : String)
    (hmodel : strTrim model ≠ "")
    (hproj : strTrim projectKey = projectKey) (hprojne : projectKey ≠ "")
    (hsha : ∀ s, ∀ c ∈ (sha256hex s).data, c.isWhitespace = false) :
    buildSignatureSessionKey sessionId model (resolveConversationKey sha256hex p)
        (some projectKey) =
      sessionId ++ ":" ++ strToLower model ++ ":" ++ projectKey ++ ":" ++
        (match amendedConversationKey sha256hex p with
         | some k => k
         | none => "default") := by
  have hamended : amendedConversationKey sha256hex p = resolveConversationKey sha256hex p := rfl
  rw [hamended]
  unfold buildSignatureSessionKey
  dsimp only
  rw [if_pos hmodel,
    if_pos (show strTrim projectKey ≠ "" by rw [hproj]; exact hprojne), hproj]
  cases hck : resolveConversationKey sha256hex p with
  | none => rfl
  | some k =>
    obtain ⟨hk1, hk2⟩ := resolveConversationKey_trimmed sha256hex p k hsha hck
    dsimp only
    rw [hk1, if_pos hk2]

/-- Witness for the amended C8 theorem at a concrete request. -/
theorem buildSignatureSessionKey_spec_witness :
    buildSignatureSessionKey "sess" "Claude-X"
        (resolveConversationKey constHexDigest seedOnlyPayload) (some "proj") =
      "sess" ++ ":" ++ strToLower "Claude-X" ++ ":" ++ "proj" ++ ":" ++
        (match amendedConversationKey constHexDigest seedOnlyPayload with
         | some k => k
         | none => "default") :=
  buildSignatureSessionKey_spec constHexDigest seedOnlyPayload "sess" "Claude-X" "proj"
    (by decide) (by decide) (by decide)
    (fun _ =>
      (by decide :
        ∀ c ∈ ("aaaaaaaaaaaaaaaaaaaaaaaaaaaaaaaaaaaaaaaaaaaaaaaaaaaaaaaaaaaaaaaa" : String).data,
          c.isWhitespace = false))

end Antigravity
